import Mathlib

/-!
# CarbonWatch: sampler-uploader loop

Shallow embedding of `IoT code/CarbonWatch.c++` (the Arduino `loop()` of an
air-quality node) and the properties its specification states about it.

## Numbers

A C `float`/`double` variable holds a finite number, an infinity or a NaN:
`FVal K` is that set of values over an ordered field `K` of finite numbers.  The
operations `FVal.sub`, `FVal.mul`, `FVal.div` give the exact result with the
special cases of IEEE 754; a `Format` then rounds every exact result to the
precision of the variable or expression that receives it.

* `Format.ieee` rounds to binary32 (`float`) and binary64 (`double`) with
  roundTiesToEven, subnormals and overflow to infinity: the arithmetic of the
  program.
* `Format.exact` does not round: the real-number reading of the formulas.

The sign of zero is not modelled.  The library function `pow` is a parameter
`rpow`: `rpow b y` is the finite number the library returns for a finite base
`b > 0`; the special cases of `pow` follow C99 Annex F.9.4.4.

## Effects

`loop` is a function from what the hardware and the libraries answer during
one cycle (`Cycle`) to the list of calls the cycle makes on the outside world
(`Effect`), in program order.
-/

namespace CarbonWatch

/-! ## Floating-point values -/

/-- Value of a C floating-point variable: a finite number, `+inf`, `-inf` or NaN. -/
inductive FVal (K : Type) where
  | fin (x : K)
  | pinf
  | ninf
  | nan
deriving DecidableEq, Repr

namespace FVal

variable {K : Type} [LinearOrderedField K]

/-- C `isnan`. -/
def isnan : FVal K → Bool
  | nan => true
  | _ => false

/-- C `a < b`: false as soon as one side is NaN. -/
def lt : FVal K → FVal K → Bool
  | fin x, fin y => decide (x < y)
  | fin _, pinf => true
  | ninf, fin _ => true
  | ninf, pinf => true
  | _, _ => false

/-- C `a <= b`: false as soon as one side is NaN. -/
def le : FVal K → FVal K → Bool
  | fin x, fin y => decide (x ≤ y)
  | fin _, pinf => true
  | ninf, fin _ => true
  | ninf, pinf => true
  | pinf, pinf => true
  | ninf, ninf => true
  | _, _ => false

/-- Infinity carrying the sign of a finite number (zero counts as positive). -/
def infOfSign (x : K) : FVal K := if x < 0 then ninf else pinf

/-- Exact `a - b` with the IEEE 754 special cases. -/
def sub : FVal K → FVal K → FVal K
  | nan, _ => nan
  | _, nan => nan
  | fin x, fin y => fin (x - y)
  | fin _, pinf => ninf
  | fin _, ninf => pinf
  | pinf, pinf => nan
  | pinf, _ => pinf
  | ninf, ninf => nan
  | ninf, _ => ninf

/-- Exact `a * b` with the IEEE 754 special cases. -/
def mul : FVal K → FVal K → FVal K
  | nan, _ => nan
  | _, nan => nan
  | fin x, fin y => fin (x * y)
  | fin x, pinf => if x = 0 then nan else infOfSign x
  | fin x, ninf => if x = 0 then nan else infOfSign (-x)
  | pinf, fin y => if y = 0 then nan else infOfSign y
  | ninf, fin y => if y = 0 then nan else infOfSign (-y)
  | pinf, pinf => pinf
  | ninf, ninf => pinf
  | pinf, ninf => ninf
  | ninf, pinf => ninf

/-- Exact `a / b` with the IEEE 754 special cases: a nonzero finite number over
zero is an infinity, `0 / 0` and `inf / inf` are NaN. -/
def div : FVal K → FVal K → FVal K
  | nan, _ => nan
  | _, nan => nan
  | fin x, fin y => if y = 0 then (if x = 0 then nan else infOfSign x) else fin (x / y)
  | fin _, pinf => fin 0
  | fin _, ninf => fin 0
  | pinf, fin y => infOfSign y
  | ninf, fin y => infOfSign (-y)
  | pinf, _ => nan
  | ninf, _ => nan

/-- True when a finite exponent is an odd integer. -/
def oddInt [FloorRing K] (y : K) : Bool := decide (Int.fract y = 0) && decide (⌊y⌋ % 2 ≠ 0)

/-- C `pow(x, y)` (C99 F.9.4.4).  `rpow b y` is the finite number the library
returns for a finite base `b > 0` and a finite exponent `y`. -/
def pow [FloorRing K] (rpow : K → K → K) : FVal K → FVal K → FVal K
  | x, fin y =>
    if y = 0 then fin 1
    else
      match x with
      | nan => nan
      | fin b =>
        if 0 < b then fin (rpow b y)
        else if b = 0 then (if y < 0 then pinf else fin 0)
        else if Int.fract y = 0 then
          (if ⌊y⌋ % 2 = 0 then fin (rpow (-b) y) else fin (-(rpow (-b) y)))
        else nan
      | pinf => if y < 0 then fin 0 else pinf
      | ninf => if y < 0 then fin 0 else (if oddInt y then ninf else pinf)
  | x, pinf =>
    match x with
    | nan => nan
    | fin b => if |b| = 1 then fin 1 else if |b| < 1 then fin 0 else pinf
    | _ => pinf
  | x, ninf =>
    match x with
    | nan => nan
    | fin b => if |b| = 1 then fin 1 else if |b| < 1 then pinf else fin 0
    | _ => fin 0
  | x, nan =>
    match x with
    | fin b => if b = 1 then fin 1 else nan
    | _ => nan

end FVal

open FVal

/-! ## Rounding -/

/-- How exact results are rounded: to the `float` type and to the `double` type. -/
structure Format (K : Type) where
  float : K → FVal K
  double : K → FVal K

/-- The power of two `2^e` as a rational. -/
def pow2 (e : Int) : ℚ :=
  if 0 ≤ e then ((2 ^ e.toNat : ℕ) : ℚ) else 1 / ((2 ^ (-e).toNat : ℕ) : ℚ)

/-- Number of binary digits of `n`, computed with `fuel` halvings. -/
def bitLength : Nat → Nat → Nat
  | 0, _ => 0
  | fuel + 1, n => if n = 0 then 0 else bitLength fuel (n / 2) + 1

/-- The exponent `k` with `2^k <= |q| < 2^(k+1)`, for `q` not zero. -/
def ilog2 (q : ℚ) : Int :=
  let d : Int := (bitLength q.num.natAbs q.num.natAbs : Int) - (bitLength q.den q.den : Int)
  if pow2 d ≤ |q| then d else d - 1

/-- Nearest integer, a tie going to the even one. -/
def roundHalfEven (t : ℚ) : Int :=
  let f := ⌊t⌋
  let r := t - f
  if r < 1 / 2 then f else if 1 / 2 < r then f + 1 else if f % 2 = 0 then f else f + 1

/-- IEEE 754 roundTiesToEven to the binary format with `p` bits of precision whose
least subnormal is `2^emin` and whose largest exponent is `emax`. -/
def roundNE (p : Nat) (emin emax : Int) (q : ℚ) : FVal ℚ :=
  if q = 0 then fin 0
  else
    let e := max (ilog2 q - ((p : Int) - 1)) emin
    let r := (roundHalfEven (|q| / pow2 e) : ℚ) * pow2 e
    if pow2 (emax + 1) ≤ r then infOfSign q else fin (if q < 0 then -r else r)

namespace Format

variable {K : Type} [LinearOrderedField K]

/-- No rounding: every result is kept exact. -/
def exact : Format K := { float := fin, double := fin }

/-- The binary32 `float` and binary64 `double` of the target. -/
def ieee : Format ℚ :=
  { float := roundNE 24 (-149) 127, double := roundNE 53 (-1074) 1023 }

/-- Rounding of an extended value: infinities and NaN are kept. -/
def round (r : K → FVal K) : FVal K → FVal K
  | fin x => r x
  | v => v

variable (F : Format K)

/-- Conversion to `float` (of a `double` expression assigned to a `float`). -/
def toFloat (v : FVal K) : FVal K := round F.float v

/-- Conversion of a C `int` to `float`. -/
def ofInt (n : Int) : FVal K := F.float (n : K)

/-- The `float` product. -/
def mulf (a b : FVal K) : FVal K := round F.float (FVal.mul a b)

/-- The `float` quotient. -/
def divf (a b : FVal K) : FVal K := round F.float (FVal.div a b)

/-- The `float` difference. -/
def subf (a b : FVal K) : FVal K := round F.float (FVal.sub a b)

/-- The `double` product. -/
def muld (a b : FVal K) : FVal K := round F.double (FVal.mul a b)

/-- The `double` quotient. -/
def divd (a b : FVal K) : FVal K := round F.double (FVal.div a b)

end Format

/-! ## Configuration constants -/

section Constants

variable {K : Type} [LinearOrderedField K] (F : Format K)

def sensorPin : Nat := 34
def Vcc : FVal K := F.toFloat (F.double 5.0)
def R_L : FVal K := F.toFloat (F.double 10000.0)
def Ro : FVal K := F.toFloat (F.double 10000.0)
def ADC_MAX : FVal K := F.toFloat (F.double 4095.0)
def serverUrl : String := "https://bytetech-final1.onrender.com/create/sensor-data"
def sensor_id : Int := 1
def barangay_id : Int := 4

end Constants

/-! ## MQ-2 gas computation and carbon level -/

section Gas

variable {K : Type} [LinearOrderedField K] [FloorRing K] (F : Format K)

/-- Sensor voltage: `float Vout = (adcReading / ADC_MAX) * Vcc`, replaced by the
`double` literal `0.0001` converted to `float` when `Vout <= 0`. -/
def Vout (adcReading : Int) : FVal K :=
  let v : FVal K := F.mulf (F.divf (F.ofInt adcReading) (ADC_MAX F)) (Vcc F)
  if le v (F.ofInt 0) then F.toFloat (F.double 0.0001) else v

/-- Sensor resistance `float Rs = R_L * (Vcc / Vout - 1)`. -/
def Rs (adcReading : Int) : FVal K :=
  F.mulf (R_L F) (F.subf (F.divf (Vcc F) (Vout F adcReading)) (F.ofInt 1))

/-- Resistance ratio `float RsRo = Rs / Ro`. -/
def RsRo (adcReading : Int) : FVal K := F.divf (Rs F adcReading) (Ro F)

/-- Concentration `float ppm = 1000.0 * pow(RsRo, -2.3)`, computed in `double`. -/
def ppm (rpow : K → K → K) (adcReading : Int) : FVal K :=
  F.toFloat (F.muld (F.double 1000.0) (pow rpow (RsRo F adcReading) (F.double (-2.3))))

/-- Mass density `float mg_per_m3 = ppm * 16.04 / 24.45`, computed in `double`. -/
def mg_per_m3 (rpow : K → K → K) (adcReading : Int) : FVal K :=
  F.toFloat (F.divd (F.muld (ppm F rpow adcReading) (F.double 16.04)) (F.double 24.45))

/-- CO2 density `float co2_density = (mg_per_m3 / 1000.0) * (44.01 / 16.04)`, computed
in `double`. -/
def co2_density (rpow : K → K → K) (adcReading : Int) : FVal K :=
  F.toFloat (F.muld (F.divd (mg_per_m3 F rpow adcReading) (F.double 1000.0))
    (F.divd (F.double 44.01) (F.double 16.04)))

/-- The `if`/`else if` chain choosing `carbon_level`: the `float` density is compared
with `double` literals. -/
def carbon_level (co2 : FVal K) : String :=
  if lt co2 (F.double 0.08) then "LOW"
  else if lt co2 (F.double 0.15) then "NORMAL"
  else if lt co2 (F.double 0.20) then "HIGH"
  else "VERY HIGH"

end Gas

/-! ## Broken-down time and `strftime` -/

/-- C `struct tm`. -/
structure tm where
  tm_sec : Int
  tm_min : Int
  tm_hour : Int
  tm_mday : Int
  tm_mon : Int
  tm_year : Int
  tm_wday : Int
  tm_yday : Int
  tm_isdst : Int
deriving DecidableEq, Repr

/-- Decimal digits of an integer, with a minus sign when negative (`%d`). -/
def decimal (n : Int) : List Char :=
  if n < 0 then '-' :: Nat.toDigits 10 n.natAbs else Nat.toDigits 10 n.natAbs

/-- Decimal digits of an integer padded with zeros to at least two digits (`%.2d`). -/
def decimal2 (n : Int) : List Char :=
  let ds := Nat.toDigits 10 n.natAbs
  let body := List.replicate (2 - ds.length) '0' ++ ds
  if n < 0 then '-' :: body else body

/-- Text that replaces the conversion specification `%c`; `none` for the
conversions this development does not cover. -/
def conversion (c : Char) (t : tm) : Option (List Char) :=
  match c with
  | 'Y' => some (decimal (t.tm_year + 1900))
  | 'm' => some (decimal2 (t.tm_mon + 1))
  | 'd' => some (decimal2 t.tm_mday)
  | 'H' => some (decimal2 t.tm_hour)
  | 'M' => some (decimal2 t.tm_min)
  | 'S' => some (decimal2 t.tm_sec)
  | '%' => some ['%']
  | _ => none

/-- Expansion of a `strftime` format: ordinary characters are copied, conversion
specifications are replaced. -/
def expand (t : tm) : List Char → Option (List Char)
  | [] => some []
  | '%' :: [] => none
  | '%' :: c :: rest =>
    match conversion c t, expand t rest with
    | some a, some b => some (a ++ b)
    | _, _ => none
  | c :: rest =>
    match expand t rest with
    | some b => some (c :: b)
    | none => none

/-- C `strftime(s, maxsize, format, t)`: the string stored in `s` when it fits in
`maxsize` bytes with its terminating null, `none` when it does not (the call
returns 0 and the contents of `s` are indeterminate). -/
def strftime (maxsize : Nat) (format : String) (t : tm) : Option String :=
  match expand t format.toList with
  | some cs => if cs.length + 1 ≤ maxsize then some (String.mk cs) else none
  | none => none

/-- The `minuteStamp` buffer after `strftime(minuteStamp, sizeof(minuteStamp), ...)`. -/
def minuteStamp (timeinfo : tm) : Option String :=
  strftime 20 "%Y-%m-%d %H:%M:00" timeinfo

/-! ## One cycle of `loop()` -/

/-- The JSON document posted by a cycle. -/
structure Reading (K : Type) where
  sensor_id : Int
  barangay_id : Int
  co2_density : FVal K
  temperature_c : FVal K
  humidity : FVal K
  heat_index_c : FVal K
  carbon_level : String
  /-- Contents of the `minuteStamp` buffer, `none` when `strftime` left it
  indeterminate. -/
  minute_stamp : Option String
deriving DecidableEq, Repr

/-- Calls a cycle makes on the hardware and the libraries. -/
inductive Effect (K : Type) where
  | wifiStatus
  | analogRead (pin : Nat)
  | readHumidity
  | readTemperature
  | computeHeatIndex
  | getLocalTime
  | serialPrint (text : String)
  | serialPrintln (text : String)
  | delay (ms : Nat)
  | httpBegin (url : String)
  | httpAddHeader (name value : String)
  | serializeJson (doc : Reading K)
  | httpPOST (body : Reading K)
  | httpEnd
deriving DecidableEq, Repr

/-- What the outside world answers during one cycle. -/
structure Cycle (K : Type) where
  /-- Result of `WiFi.status() == WL_CONNECTED`. -/
  connected : Bool
  /-- Result of `analogRead(sensorPin)`. -/
  adcReading : Int
  /-- Result of `dht.readHumidity()`. -/
  humidity : FVal K
  /-- Result of `dht.readTemperature()`. -/
  temperature_c : FVal K
  /-- Result of `dht.computeHeatIndex(temperature_c, humidity, false)`. -/
  heat_index_c : FVal K
  /-- Result of `getLocalTime(&timeinfo)`: the time stored when it returns true. -/
  timeinfo : Option tm
  /-- Result of `http.POST(requestBody)`. -/
  httpResponseCode : Int

section Loop

variable {K : Type} [LinearOrderedField K] [FloorRing K] (F : Format K)

/-- The record a cycle serialises once every read has succeeded. -/
def reading (rpow : K → K → K) (c : Cycle K) (timeinfo : tm) : Reading K :=
  { sensor_id := sensor_id
    barangay_id := barangay_id
    co2_density := co2_density F rpow c.adcReading
    temperature_c := c.temperature_c
    humidity := c.humidity
    heat_index_c := c.heat_index_c
    carbon_level := carbon_level F (co2_density F rpow c.adcReading)
    minute_stamp := minuteStamp timeinfo }

/-- One call of `loop()`: the calls it makes, in order. -/
def loop (rpow : K → K → K) (c : Cycle K) : List (Effect K) :=
  if c.connected = false then [.wifiStatus]
  else
    let sampled : List (Effect K) :=
      [.wifiStatus, .analogRead sensorPin, .readHumidity, .readTemperature]
    if isnan c.humidity || isnan c.temperature_c then
      sampled ++ [.serialPrintln "DHT read failed", .delay 2000]
    else
      match c.timeinfo with
      | none =>
        sampled ++ [.computeHeatIndex, .getLocalTime,
          .serialPrintln "Failed to obtain time", .delay 2000]
      | some timeinfo =>
        sampled ++ [.computeHeatIndex, .getLocalTime,
          .httpBegin serverUrl,
          .httpAddHeader "Content-Type" "application/json",
          .serializeJson (reading F rpow c timeinfo),
          .httpPOST (reading F rpow c timeinfo),
          .serialPrint "HTTP Response: ",
          .serialPrintln (toString c.httpResponseCode),
          .httpEnd,
          .delay 60000]

end Loop

section Trace

variable {K : Type}

/-- Milliseconds slept by a list of calls. -/
def slept : List (Effect K) → Nat
  | [] => 0
  | .delay ms :: rest => ms + slept rest
  | _ :: rest => slept rest

/-- Readings posted by a list of calls. -/
def posted : List (Effect K) → List (Reading K)
  | [] => []
  | .httpPOST body :: rest => body :: posted rest
  | _ :: rest => posted rest

/-- Calls that read a sensor. -/
def Effect.isSensorRead : Effect K → Bool
  | .analogRead _ => true
  | .readHumidity => true
  | .readTemperature => true
  | _ => false

/-- Calls that write to the serial log. -/
def Effect.isLog : Effect K → Bool
  | .serialPrint _ => true
  | .serialPrintln _ => true
  | _ => false

/-- Calls that build or send an HTTP request. -/
def Effect.isRequest : Effect K → Bool
  | .httpBegin _ => true
  | .httpAddHeader _ _ => true
  | .serializeJson _ => true
  | .httpPOST _ => true
  | _ => false

/-- Calls that sleep. -/
def Effect.isDelay : Effect K → Bool
  | .delay _ => true
  | _ => false

end Trace

/-- Rank of a carbon level in the order LOW < NORMAL < HIGH < VERY HIGH. -/
def bandRank (level : String) : Nat :=
  if level = "LOW" then 0
  else if level = "NORMAL" then 1
  else if level = "HIGH" then 2
  else 3

/-- The broken-down time 2024-01-05 14:37:52 (a Friday, day 4 of the year). -/
def sampleTime : tm :=
  { tm_sec := 52, tm_min := 37, tm_hour := 14, tm_mday := 5, tm_mon := 0,
    tm_year := 124, tm_wday := 5, tm_yday := 4, tm_isdst := 0 }

/-- The text "YYYY-MM-DD HH:MM:00" for a year, month, day, hour and minute, written
digit by digit: four digits of the year, two of every other field, seconds "00". -/
def stampText (year month day hour minute : Nat) : String :=
  String.mk
    [Nat.digitChar (year / 1000 % 10), Nat.digitChar (year / 100 % 10),
     Nat.digitChar (year / 10 % 10), Nat.digitChar (year % 10), '-',
     Nat.digitChar (month / 10 % 10), Nat.digitChar (month % 10), '-',
     Nat.digitChar (day / 10 % 10), Nat.digitChar (day % 10), ' ',
     Nat.digitChar (hour / 10 % 10), Nat.digitChar (hour % 10), ':',
     Nat.digitChar (minute / 10 % 10), Nat.digitChar (minute % 10), ':', '0', '0']

/-- A cycle that starts while the network is down. -/
def offlineCycle : Cycle ℚ :=
  { connected := false, adcReading := 1200, humidity := fin 61, temperature_c := fin 29,
    heat_index_c := fin 33, timeinfo := some sampleTime, httpResponseCode := 200 }

/-- A connected cycle whose humidity read fails. -/
def humidityFailCycle : Cycle ℚ :=
  { connected := true, adcReading := 1200, humidity := nan, temperature_c := fin 29,
    heat_index_c := fin 33, timeinfo := some sampleTime, httpResponseCode := 200 }

/-- A connected cycle whose reads succeed and whose POST is refused by the server. -/
def refusedCycle : Cycle ℚ :=
  { connected := true, adcReading := 1200, humidity := fin 61, temperature_c := fin 29,
    heat_index_c := fin 33, timeinfo := some sampleTime, httpResponseCode := 500 }

/-- The `double` nearest to `-2.3`: the exponent the program passes to `pow`. -/
def exponent : ℚ := -2589569785738035 / 1125899906842624

/-- A table of the real power `b ^ (-2.3)` to twelve digits for the resistance ratios
of the readings 0 and 1 (49999 and 8384511/2048), used to run the examples. -/
def samplePow (b _y : ℚ) : ℚ :=
  if b = 49999 then 155735982752 / 10 ^ 22 else 492107621245 / 10 ^ 20

/-- The library power is accurate at the base `b` and the exponent `y`: what it
returns is within the relative error `2^-20` of the real power `b^y`. -/
def PowAccurate (rpow : ℚ → ℚ → ℚ) (b y : ℚ) : Prop :=
  |((rpow b y : ℚ) : ℝ) - (b : ℝ) ^ (y : ℝ)| ≤ (b : ℝ) ^ (y : ℝ) / 2 ^ 20

/-- The library power is accurate on the resistance ratio of the reading `a`, for
the exponent the program passes. -/
def AccurateAt (rpow : ℚ → ℚ → ℚ) (a : Int) : Prop :=
  ∀ u : ℚ, RsRo Format.ieee a = fin u → PowAccurate rpow u exponent

/-! ## Properties of the rounding -/

section Rounding

theorem pow2_eq (e : Int) : pow2 e = (2 : ℚ) ^ e := by
  unfold pow2
  split_ifs with h
  · obtain ⟨n, rfl⟩ := Int.eq_ofNat_of_zero_le h
    simp
  · obtain ⟨n, hn⟩ := Int.eq_ofNat_of_zero_le (by omega : 0 ≤ -e)
    have he : e = -(n : Int) := by omega
    subst he
    simp

theorem pow2_pos (e : Int) : 0 < pow2 e := by
  rw [pow2_eq]
  positivity

theorem pow2_add (a b : Int) : pow2 (a + b) = pow2 a * pow2 b := by
  simp only [pow2_eq]
  exact zpow_add₀ (by norm_num) a b

theorem pow2_le (a b : Int) (h : a ≤ b) : pow2 a ≤ pow2 b := by
  simp only [pow2_eq]
  exact zpow_le_zpow_right₀ (by norm_num) h

theorem pow2_lt (a b : Int) (h : a < b) : pow2 a < pow2 b := by
  simp only [pow2_eq]
  exact zpow_lt_zpow_right₀ (by norm_num) h

theorem bitLength_spec (fuel n : Nat) (h0 : 0 < n) (hf : n ≤ fuel) :
    n < 2 ^ bitLength fuel n ∧ 2 ^ bitLength fuel n ≤ 2 * n := by
  induction fuel generalizing n with
  | zero => omega
  | succ k ih =>
    have hn : n ≠ 0 := by omega
    simp only [bitLength, if_neg hn]
    by_cases h1 : n / 2 = 0
    · have hn1 : n = 1 := by omega
      subst hn1
      cases k <;> simp [bitLength]
    · obtain ⟨ha, hb⟩ := ih (n / 2) (by omega) (by omega)
      rw [pow_succ]
      constructor <;> omega

theorem abs_eq_natAbs_div (q : ℚ) : |q| = (q.num.natAbs : ℚ) / (q.den : ℚ) := by
  have hden : (0 : ℚ) < (q.den : ℚ) := by exact_mod_cast q.den_pos
  conv_lhs => rw [← Rat.num_div_den q]
  rw [abs_div, abs_of_pos hden]
  congr 1
  rw [Nat.cast_natAbs, Int.cast_abs]

theorem ilog2_spec (q : ℚ) (hq : q ≠ 0) :
    pow2 (ilog2 q) ≤ |q| ∧ |q| < pow2 (ilog2 q + 1) := by
  have hN : 0 < q.num.natAbs := Int.natAbs_pos.mpr (Rat.num_ne_zero.mpr hq)
  have hD : 0 < q.den := q.den_pos
  obtain ⟨hN1, hN2⟩ := bitLength_spec q.num.natAbs q.num.natAbs hN le_rfl
  obtain ⟨hD1, hD2⟩ := bitLength_spec q.den q.den hD le_rfl
  set bN := bitLength q.num.natAbs q.num.natAbs with hbN
  set bD := bitLength q.den q.den with hbD
  have habs := abs_eq_natAbs_div q
  have hNq : (0 : ℚ) < (q.num.natAbs : ℚ) := by exact_mod_cast hN
  have hDq : (0 : ℚ) < (q.den : ℚ) := by exact_mod_cast hD
  have hN1q : (q.num.natAbs : ℚ) < 2 ^ bN := by exact_mod_cast hN1
  have hN2q : (2 : ℚ) ^ bN ≤ 2 * (q.num.natAbs : ℚ) := by exact_mod_cast hN2
  have hD1q : (q.den : ℚ) < 2 ^ bD := by exact_mod_cast hD1
  have hD2q : (2 : ℚ) ^ bD ≤ 2 * (q.den : ℚ) := by exact_mod_cast hD2
  have hpd : pow2 ((bN : Int) - (bD : Int)) = (2 : ℚ) ^ bN / 2 ^ bD := by
    rw [pow2_eq, zpow_sub₀ (by norm_num), zpow_natCast, zpow_natCast]
  have hbDpos : (0 : ℚ) < 2 ^ bD := by positivity
  have hbNpos : (0 : ℚ) < 2 ^ bN := by positivity
  have hup : |q| < pow2 ((bN : Int) - (bD : Int) + 1) := by
    rw [pow2_add, hpd, habs, div_lt_iff₀ hDq]
    have h1 : pow2 1 = 2 := by rw [pow2_eq]; norm_num
    rw [h1]
    have : (2 : ℚ) ^ bN / 2 ^ bD * 2 * (q.den : ℚ) = 2 ^ bN * (2 * (q.den : ℚ) / 2 ^ bD) := by
      field_simp
      ring
    rw [this]
    have h2 : (1 : ℚ) ≤ 2 * (q.den : ℚ) / 2 ^ bD := by
      rw [le_div_iff₀ hbDpos]
      linarith
    nlinarith
  have hlow : pow2 ((bN : Int) - (bD : Int) - 1) ≤ |q| := by
    have h1 : pow2 ((bN : Int) - (bD : Int) - 1) = (2 : ℚ) ^ bN / 2 ^ bD / 2 := by
      have : ((bN : Int) - (bD : Int) - 1) = ((bN : Int) - (bD : Int)) + (-1) := by ring
      rw [this, pow2_add, hpd]
      have : pow2 (-1) = 1 / 2 := by rw [pow2_eq]; norm_num
      rw [this]
      ring
    rw [h1, habs, div_div, div_le_div_iff₀ (by positivity) hDq]
    nlinarith
  unfold ilog2
  simp only [← hbN, ← hbD]
  split_ifs with h
  · exact ⟨h, hup⟩
  · refine ⟨hlow, ?_⟩
    have : ((bN : Int) - (bD : Int) - 1 + 1) = (bN : Int) - (bD : Int) := by ring
    rw [this]
    exact lt_of_not_ge h

theorem roundHalfEven_abs (t : ℚ) : |(roundHalfEven t : ℚ) - t| ≤ 1 / 2 := by
  have h1 : ((⌊t⌋ : Int) : ℚ) ≤ t := Int.floor_le t
  have h2 : t < ((⌊t⌋ : Int) : ℚ) + 1 := Int.lt_floor_add_one t
  unfold roundHalfEven
  simp only
  rw [abs_le]
  split_ifs with a b c
  · constructor <;> linarith
  · push_cast
    constructor <;> linarith
  · have : t - (⌊t⌋ : ℚ) = 1 / 2 := le_antisymm (not_lt.mp b) (not_lt.mp a)
    constructor <;> linarith
  · have : t - (⌊t⌋ : ℚ) = 1 / 2 := le_antisymm (not_lt.mp b) (not_lt.mp a)
    push_cast
    constructor <;> linarith

theorem roundHalfEven_nonneg (t : ℚ) (ht : 0 ≤ t) : 0 ≤ roundHalfEven t := by
  have h0 : (0 : Int) ≤ ⌊t⌋ := Int.floor_nonneg.mpr ht
  unfold roundHalfEven
  simp only
  split_ifs <;> omega

theorem roundHalfEven_le (t : ℚ) (m : Int) (ht : t ≤ (m : ℚ)) : roundHalfEven t ≤ m := by
  have h1 : ((⌊t⌋ : Int) : ℚ) ≤ t := Int.floor_le t
  have hfl : ⌊t⌋ ≤ m := by
    have : ((⌊t⌋ : Int) : ℚ) ≤ (m : ℚ) := le_trans h1 ht
    exact_mod_cast this
  have hstep : 0 < t - (⌊t⌋ : ℚ) → ⌊t⌋ + 1 ≤ m := by
    intro hpos
    have : ((⌊t⌋ : Int) : ℚ) < (m : ℚ) := by linarith
    have : ⌊t⌋ < m := by exact_mod_cast this
    omega
  unfold roundHalfEven
  simp only
  split_ifs with a b c
  · exact hfl
  · exact hstep (by linarith)
  · exact hfl
  · exact hstep (by
      have : t - (⌊t⌋ : ℚ) = 1 / 2 := le_antisymm (not_lt.mp b) (not_lt.mp a)
      linarith)

theorem pow2_lt_imp (a b : Int) (x : ℚ) (h1 : pow2 a ≤ x) (h2 : x < pow2 b) : a < b := by
  by_contra hc
  have : pow2 b ≤ pow2 a := pow2_le b a (by omega)
  linarith

theorem pow2_natCast (p : Nat) : pow2 (p : Int) = ((2 ^ p : Int) : ℚ) := by
  rw [pow2_eq, zpow_natCast]
  push_cast
  rfl

theorem roundNE_pos (p : Nat) (emin emax : Int) (q : ℚ) (hq : 0 < q) :
    ∃ n e : Int, (e = ilog2 q - ((p : Int) - 1) ∨ e = emin) ∧
      ilog2 q - ((p : Int) - 1) ≤ e ∧ emin ≤ e ∧ 0 ≤ n ∧ n ≤ 2 ^ p ∧
      |(n : ℚ) * pow2 e - q| ≤ pow2 e / 2 ∧
      roundNE p emin emax q =
        if pow2 (emax + 1) ≤ (n : ℚ) * pow2 e then pinf else fin ((n : ℚ) * pow2 e) := by
  have hq0 : q ≠ 0 := ne_of_gt hq
  obtain ⟨hl1, hl2⟩ := ilog2_spec q hq0
  rw [abs_of_pos hq] at hl1 hl2
  refine ⟨roundHalfEven (q / pow2 (max (ilog2 q - ((p : Int) - 1)) emin)),
    max (ilog2 q - ((p : Int) - 1)) emin, ?_, le_max_left _ _, le_max_right _ _, ?_, ?_, ?_, ?_⟩
  · rcases max_cases (ilog2 q - ((p : Int) - 1)) emin with h | h
    · exact Or.inl h.1
    · exact Or.inr h.1
  · exact roundHalfEven_nonneg _ (le_of_lt (div_pos hq (pow2_pos _)))
  · apply roundHalfEven_le
    set e := max (ilog2 q - ((p : Int) - 1)) emin with he
    have hee : ilog2 q - ((p : Int) - 1) ≤ e := le_max_left _ _
    rw [div_le_iff₀ (pow2_pos e), ← pow2_natCast, ← pow2_add]
    exact le_trans (le_of_lt hl2) (pow2_le _ _ (by omega))
  · set e := max (ilog2 q - ((p : Int) - 1)) emin with he
    have hpos := pow2_pos e
    have hr := roundHalfEven_abs (q / pow2 e)
    have heq : (roundHalfEven (q / pow2 e) : ℚ) * pow2 e - q
        = ((roundHalfEven (q / pow2 e) : ℚ) - q / pow2 e) * pow2 e := by
      field_simp
    rw [heq, abs_mul, abs_of_pos hpos]
    calc |(roundHalfEven (q / pow2 e) : ℚ) - q / pow2 e| * pow2 e
        ≤ 1 / 2 * pow2 e := mul_le_mul_of_nonneg_right hr (le_of_lt hpos)
      _ = pow2 e / 2 := by ring
  · unfold roundNE
    simp only [if_neg hq0, abs_of_pos hq, if_neg (not_lt.mpr (le_of_lt hq)), infOfSign]

theorem roundNE_near (p : Nat) (emin emax : Int) (q : ℚ) (hp : 1 ≤ p)
    (hlo : pow2 (emin + (p : Int) - 1) ≤ q) (hhi : q ≤ pow2 emax) :
    ∃ r : ℚ, roundNE p emin emax q = fin r ∧ |r - q| ≤ q / 2 ^ p := by
  have hq : 0 < q := lt_of_lt_of_le (pow2_pos _) hlo
  obtain ⟨hl1, hl2⟩ := ilog2_spec q (ne_of_gt hq)
  rw [abs_of_pos hq] at hl1 hl2
  obtain ⟨n, e, he, _, _, _, _, habs, hround⟩ := roundNE_pos p emin emax q hq
  have hnorm : emin + (p : Int) - 1 < ilog2 q + 1 := pow2_lt_imp _ _ q hlo hl2
  have he' : e = ilog2 q - ((p : Int) - 1) := by
    rcases he with h | h
    · exact h
    · omega
  have hpe : pow2 e / 2 ≤ q / 2 ^ p := by
    have h1 : pow2 (ilog2 q) = pow2 e * pow2 ((p : Int) - 1) := by
      rw [← pow2_add]
      congr 1
      omega
    have h2 : pow2 ((p : Int) - 1) * 2 = 2 ^ p := by
      have h21 : pow2 1 = 2 := by rw [pow2_eq]; norm_num
      have h22 : (p : Int) - 1 + 1 = (p : Int) := by ring
      calc pow2 ((p : Int) - 1) * 2 = pow2 ((p : Int) - 1) * pow2 1 := by rw [h21]
        _ = pow2 (p : Int) := by rw [← pow2_add, h22]
        _ = 2 ^ p := by rw [pow2_eq, zpow_natCast]
    rw [div_le_div_iff₀ (by norm_num) (by positivity)]
    calc pow2 e * 2 ^ p = pow2 e * (pow2 ((p : Int) - 1) * 2) := by rw [h2]
      _ = pow2 (ilog2 q) * 2 := by rw [h1]; ring
      _ ≤ q * 2 := by linarith
  have hbound : |(n : ℚ) * pow2 e - q| ≤ q / 2 ^ p := le_trans habs hpe
  have hhalf : q / 2 ^ p ≤ q / 2 := by
    apply div_le_div_of_nonneg_left (le_of_lt hq) (by norm_num)
    calc (2 : ℚ) = 2 ^ 1 := by norm_num
      _ ≤ 2 ^ p := pow_le_pow_right₀ (by norm_num) hp
  have hno : ¬ (pow2 (emax + 1) ≤ (n : ℚ) * pow2 e) := by
    have h1 : pow2 (emax + 1) = pow2 emax * 2 := by
      rw [pow2_add]
      congr 1
    rw [h1, not_le]
    have := (abs_le.mp hbound).2
    linarith
  exact ⟨(n : ℚ) * pow2 e, by rw [hround, if_neg hno], hbound⟩

theorem roundNE_nonpos (p : Nat) (emin emax : Int) (q r : ℚ)
    (h : roundNE p emin emax q = fin r) (hq : q ≤ 0) : r ≤ 0 := by
  rcases eq_or_lt_of_le hq with h0 | hneg
  · subst h0
    simp only [roundNE, if_true] at h
    cases h
    exact le_refl _
  · unfold roundNE at h
    simp only [if_neg (ne_of_lt hneg), if_pos hneg, infOfSign] at h
    split_ifs at h
    cases h
    have hn : (0 : ℚ) ≤ (roundHalfEven (|q| / pow2 (max (ilog2 q - ((p : Int) - 1)) emin)) : ℚ) := by
      exact_mod_cast roundHalfEven_nonneg _ (div_nonneg (abs_nonneg q) (le_of_lt (pow2_pos _)))
    have := mul_nonneg hn (le_of_lt (pow2_pos (max (ilog2 q - ((p : Int) - 1)) emin)))
    linarith

theorem roundNE_grid (p : Nat) (emin emax : Int) (q r : ℚ) (k : Int) (hp : 1 ≤ p)
    (h : roundNE p emin emax q = fin r) (hk : pow2 k ≤ r) :
    ∃ m : Int, r = (m : ℚ) * pow2 (k - (p : Int) + 1) := by
  have hr : 0 < r := lt_of_lt_of_le (pow2_pos k) hk
  have hq : 0 < q := by
    by_contra hc
    have := roundNE_nonpos p emin emax q r h (not_lt.mp hc)
    linarith
  obtain ⟨n, e, _, _, _, hn0, hn1, _, hround⟩ := roundNE_pos p emin emax q hq
  rw [hround] at h
  split_ifs at h
  cases h
  have hpe := pow2_pos e
  rcases eq_or_lt_of_le hn1 with heq | hlt
  · -- the significand is the full power of two
    have hval : (n : ℚ) * pow2 e = pow2 ((p : Int) + e) := by
      rw [pow2_add, pow2_natCast, heq]
    have hle : k ≤ (p : Int) + e := by
      by_contra hc
      have : pow2 ((p : Int) + e) < pow2 k := pow2_lt _ _ (by omega)
      linarith
    refine ⟨2 ^ ((p : Int) + e - (k - (p : Int) + 1)).toNat, ?_⟩
    rw [hval]
    have hnn : 0 ≤ (p : Int) + e - (k - (p : Int) + 1) := by omega
    have : (((2 : Int) ^ ((p : Int) + e - (k - (p : Int) + 1)).toNat : Int) : ℚ)
        = pow2 ((p : Int) + e - (k - (p : Int) + 1)) := by
      rw [← pow2_natCast, Int.toNat_of_nonneg hnn]
    rw [this, ← pow2_add]
    congr 1
    ring
  · have hlt' : (n : ℚ) < pow2 (p : Int) := by
      rw [pow2_natCast]
      exact_mod_cast hlt
    have hle : k - (p : Int) + 1 ≤ e := by
      by_contra hc
      have h1 : pow2 ((p : Int) + e) ≤ pow2 k := pow2_le _ _ (by omega)
      have h2 : (n : ℚ) * pow2 e < pow2 ((p : Int) + e) := by
        rw [pow2_add]
        exact mul_lt_mul_of_pos_right hlt' hpe
      linarith
    refine ⟨n * 2 ^ (e - (k - (p : Int) + 1)).toNat, ?_⟩
    have hnn : 0 ≤ e - (k - (p : Int) + 1) := by omega
    have : (((2 : Int) ^ (e - (k - (p : Int) + 1)).toNat : Int) : ℚ)
        = pow2 (e - (k - (p : Int) + 1)) := by
      rw [← pow2_natCast, Int.toNat_of_nonneg hnn]
    push_cast
    rw [mul_assoc]
    congr 1
    have h3 : ((2 : ℚ) ^ (e - (k - (p : Int) + 1)).toNat) = pow2 (e - (k - (p : Int) + 1)) := by
      rw [← this]
      push_cast
      rfl
    rw [h3, ← pow2_add]
    congr 1
    ring

theorem float_near (x : ℚ) (h1 : 1 / 2 ^ 60 ≤ x) (h2 : x ≤ 2 ^ 60) :
    ∃ r : ℚ, Format.ieee.float x = fin r ∧ x - x / 2 ^ 24 ≤ r ∧ r ≤ x + x / 2 ^ 24 := by
  have hlo : pow2 (-149 + ((24 : Nat) : Int) - 1) ≤ x := by
    refine le_trans ?_ h1
    rw [pow2_eq]
    norm_num
  have hhi : x ≤ pow2 127 := by
    refine le_trans h2 ?_
    rw [pow2_eq]
    norm_num
  obtain ⟨r, hr, habs⟩ := roundNE_near 24 (-149) 127 x (by norm_num) hlo hhi
  obtain ⟨ha, hb⟩ := abs_le.mp habs
  exact ⟨r, hr, by linarith, by linarith⟩

theorem double_near (x : ℚ) (h1 : 1 / 2 ^ 60 ≤ x) (h2 : x ≤ 2 ^ 60) :
    ∃ r : ℚ, Format.ieee.double x = fin r ∧ x - x / 2 ^ 53 ≤ r ∧ r ≤ x + x / 2 ^ 53 := by
  have hlo : pow2 (-1074 + ((53 : Nat) : Int) - 1) ≤ x := by
    refine le_trans ?_ h1
    rw [pow2_eq]
    norm_num
  have hhi : x ≤ pow2 1023 := by
    refine le_trans h2 ?_
    rw [pow2_eq]
    norm_num
  obtain ⟨r, hr, habs⟩ := roundNE_near 53 (-1074) 1023 x (by norm_num) hlo hhi
  obtain ⟨ha, hb⟩ := abs_le.mp habs
  exact ⟨r, hr, by linarith, by linarith⟩

end Rounding

/-! ## The program's constants in binary32 and binary64 -/

section Evaluation

theorem ieee_Vcc : Vcc Format.ieee = fin 5 := by decide!

theorem ieee_R_L : R_L Format.ieee = fin 10000 := by decide!

theorem ieee_Ro : Ro Format.ieee = fin 10000 := by decide!

theorem ieee_ADC_MAX : ADC_MAX Format.ieee = fin 4095 := by decide!

theorem ieee_ofInt_zero : Format.ieee.ofInt 0 = fin 0 := by decide!

theorem ieee_ofInt_one : Format.ieee.ofInt 1 = fin 1 := by decide!

theorem ieee_clamp :
    Format.ieee.toFloat (Format.ieee.double 0.0001) = fin (13743895 / 137438953472) := by
  decide!

theorem ieee_lit_1000 : Format.ieee.double 1000.0 = fin 1000 := by decide!

theorem ieee_lit_exponent :
    Format.ieee.double (-2.3) = fin exponent := by decide!

theorem ieee_lit_16_04 :
    Format.ieee.double 16.04 = fin (2257429313219461 / 140737488355328) := by decide!

theorem ieee_lit_24_45 :
    Format.ieee.double 24.45 = fin (6882063180575539 / 281474976710656) := by decide!

theorem ieee_lit_quotient :
    Format.ieee.divd (Format.ieee.double 44.01) (Format.ieee.double 16.04)
      = fin (1544602708857353 / 562949953421312) := by decide!

theorem ieee_lit_0_08 :
    Format.ieee.double 0.08 = fin (5764607523034235 / 72057594037927936) := by decide!

theorem ieee_lit_0_15 :
    Format.ieee.double 0.15 = fin (5404319552844595 / 36028797018963968) := by decide!

theorem ieee_lit_0_20 :
    Format.ieee.double 0.20 = fin (3602879701896397 / 18014398509481984) := by decide!

theorem ieee_Vout_zero : Vout Format.ieee 0 = fin (13743895 / 137438953472) := by decide!

theorem ieee_Rs_zero : Rs Format.ieee 0 = fin 499990016 := by decide!

theorem ieee_RsRo_zero : RsRo Format.ieee 0 = fin 49999 := by decide!

theorem ieee_Vout_max : Vout Format.ieee 4095 = fin 5 := by decide!

theorem ieee_Rs_max : Rs Format.ieee 4095 = fin 0 := by decide!

theorem ieee_RsRo_max : RsRo Format.ieee 4095 = fin 0 := by decide!

end Evaluation

/-! ## The gas computation in binary32 -/

section Unfold

variable {K : Type} [LinearOrderedField K] (F : Format K)

omit [LinearOrderedField K] in
theorem toFloat_fin (x : K) : F.toFloat (fin x) = F.float x := rfl

theorem mulf_fin (x y : K) : F.mulf (fin x) (fin y) = F.float (x * y) := rfl

theorem subf_fin (x y : K) : F.subf (fin x) (fin y) = F.float (x - y) := rfl

theorem divf_fin (x y : K) (hy : y ≠ 0) : F.divf (fin x) (fin y) = F.float (x / y) := by
  simp [Format.divf, FVal.div, hy, Format.round]

theorem muld_fin (x y : K) : F.muld (fin x) (fin y) = F.double (x * y) := rfl

theorem divd_fin (x y : K) (hy : y ≠ 0) : F.divd (fin x) (fin y) = F.double (x / y) := by
  simp [Format.divd, FVal.div, hy, Format.round]

theorem mul_fin_pinf (x : K) (hx : 0 < x) : FVal.mul (fin x) pinf = pinf := by
  simp [FVal.mul, infOfSign, ne_of_gt hx, not_lt.mpr (le_of_lt hx)]

theorem mul_pinf_fin (y : K) (hy : 0 < y) : FVal.mul pinf (fin y) = pinf := by
  simp [FVal.mul, infOfSign, ne_of_gt hy, not_lt.mpr (le_of_lt hy)]

theorem div_pinf_fin (y : K) (hy : 0 < y) : FVal.div pinf (fin y) = pinf := by
  simp [FVal.div, infOfSign, not_lt.mpr (le_of_lt hy)]

theorem muld_fin_pinf (x : K) (hx : 0 < x) : F.muld (fin x) pinf = pinf := by
  rw [Format.muld, mul_fin_pinf x hx]
  rfl

theorem muld_pinf_fin (y : K) (hy : 0 < y) : F.muld pinf (fin y) = pinf := by
  rw [Format.muld, mul_pinf_fin y hy]
  rfl

theorem divd_pinf_fin (y : K) (hy : 0 < y) : F.divd pinf (fin y) = pinf := by
  rw [Format.divd, div_pinf_fin y hy]
  rfl

omit [LinearOrderedField K] in
theorem toFloat_pinf : F.toFloat pinf = pinf := rfl

end Unfold

section Chain

theorem ieee_Vout_bounds (a : Int) (h1 : 1 ≤ a) (h2 : a ≤ 4094) :
    ∃ v : ℚ, Vout Format.ieee a = fin v ∧
      (a : ℚ) * 5 / 4095 * (1 - 1 / 2 ^ 22) ≤ v ∧ v ≤ (a : ℚ) * 5 / 4095 * (1 + 1 / 2 ^ 22) := by
  have ha1 : (1 : ℚ) ≤ (a : ℚ) := by exact_mod_cast h1
  have ha2 : (a : ℚ) ≤ 4094 := by exact_mod_cast h2
  -- conversion of the reading to float
  obtain ⟨x0, hx0, hx0l, hx0u⟩ := float_near (a : ℚ) (by norm_num; linarith) (by norm_num; linarith)
  -- adcReading / ADC_MAX
  obtain ⟨x1, hx1, hx1l, hx1u⟩ := float_near (x0 / 4095) (by norm_num at *; linarith)
    (by norm_num at *; linarith)
  -- (adcReading / ADC_MAX) * Vcc
  obtain ⟨v, hv, hvl, hvu⟩ := float_near (x1 * 5) (by norm_num at *; linarith)
    (by norm_num at *; linarith)
  have hvpos : 0 < v := by norm_num at *; linarith
  refine ⟨v, ?_, by norm_num at *; linarith, by norm_num at *; linarith⟩
  have e1 : Format.ieee.ofInt a = fin x0 := hx0
  have e2 : Format.ieee.divf (fin x0) (fin 4095) = fin x1 := by
    rw [divf_fin _ _ _ (by norm_num)]
    exact hx1
  have e3 : Format.ieee.mulf (fin x1) (fin 5) = fin v := by
    rw [mulf_fin]
    exact hv
  simp only [Vout, ieee_ADC_MAX, ieee_Vcc, e1, e2, e3, ieee_ofInt_zero, FVal.le,
    decide_eq_true_eq, if_neg (not_le.mpr hvpos)]

theorem ieee_RsRo_bounds (a : Int) (h1 : 1 ≤ a) (h2 : a ≤ 4094) :
    ∃ u : ℚ, RsRo Format.ieee a = fin u ∧
      ((1 - 1 / 2 ^ 21) * (4095 / (a : ℚ)) - 1) * (1 - 1 / 2 ^ 21) ≤ u ∧
      u ≤ ((1 + 1 / 2 ^ 21) * (4095 / (a : ℚ)) - 1) * (1 + 1 / 2 ^ 21) := by
  have ha1 : (1 : ℚ) ≤ (a : ℚ) := by exact_mod_cast h1
  have ha2 : (a : ℚ) ≤ 4094 := by exact_mod_cast h2
  have hapos : (0 : ℚ) < (a : ℚ) := by linarith
  obtain ⟨v, hv, hvl, hvu⟩ := ieee_Vout_bounds a h1 h2
  have hvpos : 0 < v := by
    have : (0 : ℚ) < (a : ℚ) * 5 / 4095 * (1 - 1 / 2 ^ 22) := by positivity
    linarith
  set A : ℚ := 4095 / (a : ℚ) with hA
  have hAa : A * (a : ℚ) = 4095 := by rw [hA]; field_simp
  have hA1 : 4095 / 4094 ≤ A := by
    rw [hA, div_le_div_iff₀ (by norm_num) hapos]
    linarith
  have hA2 : A ≤ 4095 := by
    rw [hA, div_le_iff₀ hapos]
    linarith
  -- the exact quotient Vcc / Vout against 4095 / a
  have ht3u : 5 / v ≤ A * (4194304 / 4194303) := by
    rw [div_le_iff₀ hvpos]
    have : A * (4194304 / 4194303) * ((a : ℚ) * 5 / 4095 * (1 - 1 / 2 ^ 22)) = 5 := by
      have : A * (4194304 / 4194303) * ((a : ℚ) * 5 / 4095 * (1 - 1 / 2 ^ 22))
          = (A * (a : ℚ)) * (5 / 4095) * ((4194304 / 4194303) * (1 - 1 / 2 ^ 22)) := by ring
      rw [this, hAa]
      norm_num
    have hpos : (0 : ℚ) < A * (4194304 / 4194303) := by positivity
    nlinarith [mul_le_mul_of_nonneg_left hvl (le_of_lt hpos)]
  have ht3l : A * (4194304 / 4194305) ≤ 5 / v := by
    rw [le_div_iff₀ hvpos]
    have : A * (4194304 / 4194305) * ((a : ℚ) * 5 / 4095 * (1 + 1 / 2 ^ 22)) = 5 := by
      have : A * (4194304 / 4194305) * ((a : ℚ) * 5 / 4095 * (1 + 1 / 2 ^ 22))
          = (A * (a : ℚ)) * (5 / 4095) * ((4194304 / 4194305) * (1 + 1 / 2 ^ 22)) := by ring
      rw [this, hAa]
      norm_num
    have hpos : (0 : ℚ) < A * (4194304 / 4194305) := by positivity
    nlinarith [mul_le_mul_of_nonneg_left hvu (le_of_lt hpos)]
  -- Vcc / Vout
  obtain ⟨w, hw, hwl, hwu⟩ := float_near (5 / v) (by norm_num at *; linarith)
    (by norm_num at *; linarith)
  -- Vcc / Vout - 1
  obtain ⟨z, hz, hzl, hzu⟩ := float_near (w - 1) (by norm_num at *; linarith)
    (by norm_num at *; linarith)
  -- R_L * (Vcc / Vout - 1)
  obtain ⟨r, hr, hrl, hru⟩ := float_near (10000 * z) (by norm_num at *; linarith)
    (by norm_num at *; linarith)
  -- Rs / Ro
  obtain ⟨u, hu, hul, huu⟩ := float_near (r / 10000) (by norm_num at *; linarith)
    (by norm_num at *; linarith)
  refine ⟨u, ?_, by norm_num at *; linarith, by norm_num at *; linarith⟩
  have e1 : Format.ieee.divf (fin 5) (fin v) = fin w := by
    rw [divf_fin _ _ _ (ne_of_gt hvpos)]
    exact hw
  have e2 : Format.ieee.subf (fin w) (fin 1) = fin z := by
    rw [subf_fin]
    exact hz
  have e3 : Format.ieee.mulf (fin 10000) (fin z) = fin r := by
    rw [mulf_fin]
    exact hr
  have e4 : Format.ieee.divf (fin r) (fin 10000) = fin u := by
    rw [divf_fin _ _ _ (by norm_num)]
    exact hu
  simp only [RsRo, Rs, hv, ieee_Vcc, ieee_R_L, ieee_Ro, ieee_ofInt_one, e1, e2, e3, e4]

theorem gap_poly (m : ℚ) (h2 : m ≤ 4093) :
    ((1 + 1 / 2 ^ 21) * 4095 - (m + 1)) * m * (1 + 1 / 2 ^ 21) * (1 + 1 / 2048)
      ≤ ((1 - 1 / 2 ^ 21) * 4095 - m) * (m + 1) * (1 - 1 / 2 ^ 21) := by
  nlinarith [sq_nonneg (m - 2047), h2]

theorem gap_frac (m : ℚ) (h1 : 1 ≤ m) (h2 : m ≤ 4093) :
    ((1 + 1 / 2 ^ 21) * (4095 / (m + 1)) - 1) * (1 + 1 / 2 ^ 21) * (1 + 1 / 2048)
      ≤ ((1 - 1 / 2 ^ 21) * (4095 / m) - 1) * (1 - 1 / 2 ^ 21) := by
  have hm : 0 < m := by linarith
  have hm1 : 0 < m + 1 := by linarith
  have e1 : ((1 + 1 / 2 ^ 21) * (4095 / (m + 1)) - 1) * (1 + 1 / 2 ^ 21) * (1 + 1 / 2048)
      = (((1 + 1 / 2 ^ 21) * 4095 - (m + 1)) * m * (1 + 1 / 2 ^ 21) * (1 + 1 / 2048))
        / (m * (m + 1)) := by
    field_simp
    ring
  have e2 : ((1 - 1 / 2 ^ 21) * (4095 / m) - 1) * (1 - 1 / 2 ^ 21)
      = (((1 - 1 / 2 ^ 21) * 4095 - m) * (m + 1) * (1 - 1 / 2 ^ 21)) / (m * (m + 1)) := by
    field_simp
    ring
  rw [e1, e2]
  exact div_le_div_of_nonneg_right (gap_poly m h2) (le_of_lt (mul_pos hm hm1))

theorem ieee_RsRo_range (a : Int) (h0 : 0 ≤ a) (h2 : a ≤ 4094) :
    ∃ u : ℚ, RsRo Format.ieee a = fin u ∧ 1 / 2 ^ 13 ≤ u ∧ u ≤ 2 ^ 16 := by
  rcases eq_or_lt_of_le h0 with h | h
  · subst h
    exact ⟨49999, ieee_RsRo_zero, by norm_num, by norm_num⟩
  · obtain ⟨u, hu, hl, hh⟩ := ieee_RsRo_bounds a (by omega) h2
    have ha1 : (1 : ℚ) ≤ (a : ℚ) := by exact_mod_cast (by omega : (1 : Int) ≤ a)
    have ha2 : (a : ℚ) ≤ 4094 := by exact_mod_cast h2
    have hapos : (0 : ℚ) < (a : ℚ) := by linarith
    have hA1 : 4095 / 4094 ≤ 4095 / (a : ℚ) := by
      rw [div_le_div_iff₀ (by norm_num) hapos]
      linarith
    have hA2 : 4095 / (a : ℚ) ≤ 4095 := by
      rw [div_le_iff₀ hapos]
      linarith
    exact ⟨u, hu, by norm_num at *; linarith, by norm_num at *; linarith⟩

theorem ieee_RsRo_gap (a b : Int) (h0 : 0 ≤ a) (hab : a < b) (hb : b ≤ 4094) :
    ∃ u v : ℚ, RsRo Format.ieee a = fin u ∧ RsRo Format.ieee b = fin v ∧
      v * (1 + 1 / 2048) ≤ u := by
  have hb1 : (1 : ℚ) ≤ (b : ℚ) := by exact_mod_cast (by omega : (1 : Int) ≤ b)
  have hb2 : (b : ℚ) ≤ 4094 := by exact_mod_cast hb
  have hbpos : (0 : ℚ) < (b : ℚ) := by linarith
  obtain ⟨v, hv, hvl, hvu⟩ := ieee_RsRo_bounds b (by omega) hb
  have hB2 : 4095 / (b : ℚ) ≤ 4095 := by
    rw [div_le_iff₀ hbpos]
    linarith
  rcases eq_or_lt_of_le h0 with h | h
  · subst h
    exact ⟨49999, v, ieee_RsRo_zero, hv, by norm_num at *; linarith⟩
  · obtain ⟨u, hu, hul, huu⟩ := ieee_RsRo_bounds a (by omega) (by omega)
    refine ⟨u, v, hu, hv, ?_⟩
    have ha1 : (1 : ℚ) ≤ (a : ℚ) := by exact_mod_cast (by omega : (1 : Int) ≤ a)
    have hapos : (0 : ℚ) < (a : ℚ) := by linarith
    have hab' : (a : ℚ) ≤ (b : ℚ) - 1 := by
      have : a ≤ b - 1 := by omega
      exact_mod_cast this
    have hm1 : (1 : ℚ) ≤ (b : ℚ) - 1 := by linarith
    have hgap := gap_frac ((b : ℚ) - 1) hm1 (by linarith)
    rw [sub_add_cancel] at hgap
    have hmono : 4095 / ((b : ℚ) - 1) ≤ 4095 / (a : ℚ) :=
      div_le_div_of_nonneg_left (by norm_num) hapos hab'
    have hL : ((1 - 1 / 2 ^ 21) * (4095 / ((b : ℚ) - 1)) - 1) * (1 - 1 / 2 ^ 21)
        ≤ ((1 - 1 / 2 ^ 21) * (4095 / (a : ℚ)) - 1) * (1 - 1 / 2 ^ 21) := by
      have hc : (0 : ℚ) ≤ 1 - 1 / 2 ^ 21 := by norm_num
      exact mul_le_mul_of_nonneg_right
        (sub_le_sub_right (mul_le_mul_of_nonneg_left hmono hc) 1) hc
    calc v * (1 + 1 / 2048)
        ≤ ((1 + 1 / 2 ^ 21) * (4095 / (b : ℚ)) - 1) * (1 + 1 / 2 ^ 21) * (1 + 1 / 2048) :=
          mul_le_mul_of_nonneg_right hvu (by norm_num)
      _ ≤ ((1 - 1 / 2 ^ 21) * (4095 / ((b : ℚ) - 1)) - 1) * (1 - 1 / 2 ^ 21) := hgap
      _ ≤ ((1 - 1 / 2 ^ 21) * (4095 / (a : ℚ)) - 1) * (1 - 1 / 2 ^ 21) := hL
      _ ≤ u := hul

theorem ieee_pow_fin (rpow : ℚ → ℚ → ℚ) (u : ℚ) (hu : 0 < u) :
    FVal.pow rpow (fin u) (Format.ieee.double (-2.3))
      = fin (rpow u exponent) := by
  rw [ieee_lit_exponent]
  have hy : ¬ (exponent = 0) := by unfold exponent; norm_num
  simp only [FVal.pow, if_neg hy, if_pos hu]

theorem ieee_co2_of_pow (rpow : ℚ → ℚ → ℚ) (a : Int) (u : ℚ) (hu : 0 < u)
    (hR : RsRo Format.ieee a = fin u)
    (hp1 : 1 / 2 ^ 50 ≤ rpow u exponent)
    (hp2 : rpow u exponent ≤ 2 ^ 45) :
    ∃ d : ℚ, co2_density Format.ieee rpow a = fin d ∧
      9 / 5 * rpow u exponent * (1 - 1 / 2 ^ 21) ≤ d ∧
      d ≤ 9 / 5 * rpow u exponent * (1 + 1 / 2 ^ 21) := by
  set pw : ℚ := rpow u exponent with hpw
  -- 1000.0 * pow(RsRo, -2.3), then the conversion to float
  obtain ⟨d1, hd1, hd1l, hd1u⟩ := double_near (1000 * pw) (by norm_num at *; linarith)
    (by norm_num at *; linarith)
  obtain ⟨q1, hq1, hq1l, hq1u⟩ := float_near d1 (by norm_num at *; linarith)
    (by norm_num at *; linarith)
  -- ppm * 16.04 / 24.45, then the conversion to float
  obtain ⟨d2, hd2, hd2l, hd2u⟩ := double_near (q1 * (2257429313219461 / 140737488355328))
    (by norm_num at *; linarith) (by norm_num at *; linarith)
  obtain ⟨d3, hd3, hd3l, hd3u⟩ := double_near (d2 / (6882063180575539 / 281474976710656))
    (by norm_num at *; linarith) (by norm_num at *; linarith)
  obtain ⟨q2, hq2, hq2l, hq2u⟩ := float_near d3 (by norm_num at *; linarith)
    (by norm_num at *; linarith)
  -- (mg_per_m3 / 1000.0) * (44.01 / 16.04), then the conversion to float
  obtain ⟨d4, hd4, hd4l, hd4u⟩ := double_near (q2 / 1000) (by norm_num at *; linarith)
    (by norm_num at *; linarith)
  obtain ⟨d5, hd5, hd5l, hd5u⟩ := double_near (d4 * (1544602708857353 / 562949953421312))
    (by norm_num at *; linarith) (by norm_num at *; linarith)
  obtain ⟨d, hd, hdl, hdu⟩ := float_near d5 (by norm_num at *; linarith)
    (by norm_num at *; linarith)
  refine ⟨d, ?_, by norm_num at *; linarith, by norm_num at *; linarith⟩
  have e1 : ppm Format.ieee rpow a = fin q1 := by
    simp only [ppm, hR, ieee_pow_fin rpow u hu, ieee_lit_1000, muld_fin, ← hpw, hd1,
      toFloat_fin, hq1]
  have e2 : mg_per_m3 Format.ieee rpow a = fin q2 := by
    simp only [mg_per_m3, e1, ieee_lit_16_04, ieee_lit_24_45, muld_fin, hd2]
    rw [divd_fin _ _ _ (by norm_num), hd3, toFloat_fin, hq2]
  simp only [co2_density, e2, ieee_lit_1000, ieee_lit_quotient]
  rw [divd_fin _ _ _ (by norm_num), hd4, muld_fin, hd5, toFloat_fin, hd]

end Chain

/-! ## The real power function -/

section RealPower

theorem rpow_range (u y : ℝ) (hu1 : 1 / 2 ^ 13 ≤ u) (hu2 : u ≤ 2 ^ 16) (hy1 : -3 ≤ y)
    (hy2 : y ≤ -2) : 1 / 2 ^ 48 ≤ u ^ y ∧ u ^ y ≤ 2 ^ 39 := by
  have hu : 0 < u := lt_of_lt_of_le (by norm_num) hu1
  have h3 : u ^ (-3 : ℝ) = (u ^ 3)⁻¹ := by
    rw [Real.rpow_neg (le_of_lt hu)]
    congr 1
    exact_mod_cast Real.rpow_natCast u 3
  rcases le_total 1 u with h | h
  · constructor
    · have ha : u ^ (-3 : ℝ) ≤ u ^ y := Real.rpow_le_rpow_of_exponent_le h hy1
      have hb : (1 : ℝ) / 2 ^ 48 ≤ (u ^ 3)⁻¹ := by
        rw [one_div]
        apply inv_anti₀ (by positivity)
        calc u ^ 3 ≤ (2 ^ 16) ^ 3 := pow_le_pow_left₀ (le_of_lt hu) hu2 3
          _ = 2 ^ 48 := by norm_num
      rw [h3] at ha
      linarith
    · have ha : u ^ y ≤ u ^ (0 : ℝ) := Real.rpow_le_rpow_of_exponent_le h (by linarith)
      rw [Real.rpow_zero] at ha
      linarith [show (1 : ℝ) ≤ 2 ^ 39 by norm_num]
  · constructor
    · have ha : u ^ (0 : ℝ) ≤ u ^ y := Real.rpow_le_rpow_of_exponent_ge hu h (by linarith)
      rw [Real.rpow_zero] at ha
      linarith [show (1 : ℝ) / 2 ^ 48 ≤ 1 by norm_num]
    · have ha : u ^ y ≤ u ^ (-3 : ℝ) := Real.rpow_le_rpow_of_exponent_ge hu h hy1
      have hb : (u ^ 3)⁻¹ ≤ 2 ^ 39 := by
        have : ((1 : ℝ) / 2 ^ 13) ^ 3 ≤ u ^ 3 := pow_le_pow_left₀ (by norm_num) hu1 3
        have hpos : (0 : ℝ) < ((1 : ℝ) / 2 ^ 13) ^ 3 := by positivity
        calc (u ^ 3)⁻¹ ≤ (((1 : ℝ) / 2 ^ 13) ^ 3)⁻¹ := inv_anti₀ hpos this
          _ = 2 ^ 39 := by norm_num
      rw [h3] at ha
      linarith

theorem rpow_gap (u v y : ℝ) (hv : 0 < v) (huv : v * (1 + 1 / 2048) ≤ u) (hy : y ≤ -2) :
    u ^ y * (1 + 1 / 2048) ^ 2 ≤ v ^ y := by
  have hc : (0 : ℝ) < 1 + 1 / 2048 := by norm_num
  have h1 : u ^ y ≤ (v * (1 + 1 / 2048)) ^ y :=
    Real.rpow_le_rpow_of_exponent_nonpos (mul_pos hv hc) huv (by linarith)
  rw [Real.mul_rpow (le_of_lt hv) (le_of_lt hc)] at h1
  have h2 : (1 + 1 / 2048 : ℝ) ^ y ≤ (1 + 1 / 2048 : ℝ) ^ (-2 : ℝ) :=
    Real.rpow_le_rpow_of_exponent_le (by norm_num) hy
  have h3 : (1 + 1 / 2048 : ℝ) ^ (-2 : ℝ) = ((1 + 1 / 2048 : ℝ) ^ 2)⁻¹ := by
    rw [Real.rpow_neg (le_of_lt hc)]
    congr 1
    exact_mod_cast Real.rpow_natCast (1 + 1 / 2048 : ℝ) 2
  rw [h3] at h2
  have hvy : 0 < v ^ y := Real.rpow_pos_of_pos hv y
  have h4 : u ^ y ≤ v ^ y * ((1 + 1 / 2048 : ℝ) ^ 2)⁻¹ :=
    le_trans h1 (mul_le_mul_of_nonneg_left h2 (le_of_lt hvy))
  have hsq : (0 : ℝ) < (1 + 1 / 2048 : ℝ) ^ 2 := by positivity
  calc u ^ y * (1 + 1 / 2048) ^ 2
      ≤ v ^ y * ((1 + 1 / 2048 : ℝ) ^ 2)⁻¹ * (1 + 1 / 2048) ^ 2 :=
        mul_le_mul_of_nonneg_right h4 (le_of_lt hsq)
    _ = v ^ y := by field_simp

theorem exponent_cast : (-3 : ℝ) ≤ (exponent : ℝ) ∧ (exponent : ℝ) ≤ -2 := by
  unfold exponent
  constructor <;> · push_cast; norm_num

theorem accurate_range (rpow : ℚ → ℚ → ℚ) (u : ℚ) (hu1 : 1 / 2 ^ 13 ≤ u) (hu2 : u ≤ 2 ^ 16)
    (hacc : PowAccurate rpow u exponent) :
    1 / 2 ^ 50 ≤ rpow u exponent ∧
      rpow u exponent ≤ 2 ^ 45 := by
  have hu1' : (1 : ℝ) / 2 ^ 13 ≤ (u : ℝ) := by
    have := (Rat.cast_le (K := ℝ)).mpr hu1
    push_cast at this
    exact this
  have hu2' : (u : ℝ) ≤ 2 ^ 16 := by
    have := (Rat.cast_le (K := ℝ)).mpr hu2
    push_cast at this
    exact this
  obtain ⟨hr1, hr2⟩ := rpow_range (u : ℝ) _ hu1' hu2' exponent_cast.1 exponent_cast.2
  obtain ⟨ha, hb⟩ := abs_le.mp hacc
  constructor
  · have : (((1 / 2 ^ 50 : ℚ)) : ℝ) ≤ ((rpow u exponent : ℚ) : ℝ) := by
      push_cast
      norm_num at *
      linarith
    exact (Rat.cast_le (K := ℝ)).mp this
  · have : ((rpow u exponent : ℚ) : ℝ) ≤ (((2 ^ 45 : ℚ)) : ℝ) := by
      push_cast
      norm_num at *
      linarith
    exact (Rat.cast_le (K := ℝ)).mp this

theorem accurate_gap (rpow : ℚ → ℚ → ℚ) (u v : ℚ) (hv : 0 < v)
    (huv : v * (1 + 1 / 2048) ≤ u)
    (hu : PowAccurate rpow u exponent)
    (hvacc : PowAccurate rpow v exponent) :
    rpow u exponent * (1 + 1 / 2 ^ 11)
      ≤ rpow v exponent := by
  have hv' : (0 : ℝ) < (v : ℝ) := by exact_mod_cast hv
  have huv' : (v : ℝ) * (1 + 1 / 2048) ≤ (u : ℝ) := by
    have := (Rat.cast_le (K := ℝ)).mpr huv
    push_cast at this
    exact this
  have hu' : (0 : ℝ) < (u : ℝ) := lt_of_lt_of_le (by positivity) huv'
  have hg := rpow_gap (u : ℝ) (v : ℝ) _ hv' huv' exponent_cast.2
  have htu : 0 < (u : ℝ) ^ (exponent : ℝ) :=
    Real.rpow_pos_of_pos hu' _
  obtain ⟨_, hub⟩ := abs_le.mp hu
  obtain ⟨hva, _⟩ := abs_le.mp hvacc
  have : (((rpow u exponent * (1 + 1 / 2 ^ 11) : ℚ)) : ℝ)
      ≤ ((rpow v exponent : ℚ) : ℝ) := by
    push_cast
    norm_num at *
    nlinarith
  exact (Rat.cast_le (K := ℝ)).mp this

theorem powAccurate_of_bracket (rpow : ℚ → ℚ → ℚ) (b q lo hi : ℚ) (hb : 1 ≤ b)
    (hq : rpow b exponent = q) (hlo : 0 < lo) (hhi : 0 < hi)
    (h1 : lo ^ 10 * b ^ 23 ≤ 1) (h2 : 1 ≤ hi ^ 10 * b ^ 23)
    (h3 : hi * (1 + (b - 1) / 2 ^ 52) * (1 - 1 / 2 ^ 20) ≤ q)
    (h4 : q ≤ lo * (1 + 1 / 2 ^ 20)) : PowAccurate rpow b exponent := by
  have hb' : (1 : ℝ) ≤ (b : ℝ) := by exact_mod_cast hb
  have hbpos : (0 : ℝ) < (b : ℝ) := by linarith
  -- the exponent is -23/10 plus a small non-negative excess
  have hexp : (exponent : ℝ) = (-23 / 10 : ℝ) + 1 / (5 * 2 ^ 50) := by
    unfold exponent
    push_cast
    norm_num
  have hsplit : (b : ℝ) ^ (exponent : ℝ)
      = (b : ℝ) ^ (-23 / 10 : ℝ) * (b : ℝ) ^ (1 / (5 * 2 ^ 50) : ℝ) := by
    rw [hexp, Real.rpow_add hbpos]
  set r : ℝ := (b : ℝ) ^ (-23 / 10 : ℝ) with hr
  set e : ℝ := (b : ℝ) ^ (1 / (5 * 2 ^ 50) : ℝ) with he
  have hrpos : 0 < r := Real.rpow_pos_of_pos hbpos _
  have hr10 : r ^ 10 * (b : ℝ) ^ 23 = 1 := by
    have h10 : r ^ 10 = (b : ℝ) ^ (-23 : ℝ) := by
      rw [hr, ← Real.rpow_natCast, ← Real.rpow_mul (le_of_lt hbpos)]
      norm_num
    have h23 : (b : ℝ) ^ (-23 : ℝ) = ((b : ℝ) ^ 23)⁻¹ := by
      rw [Real.rpow_neg (le_of_lt hbpos)]
      congr 1
      exact_mod_cast Real.rpow_natCast (b : ℝ) 23
    rw [h10, h23]
    field_simp
  have hb23 : (0 : ℝ) < (b : ℝ) ^ 23 := by positivity
  have hlo' : (lo : ℝ) ≤ r := by
    apply le_of_pow_le_pow_left₀ (by norm_num : (10 : ℕ) ≠ 0) (le_of_lt hrpos)
    have : (lo : ℝ) ^ 10 * (b : ℝ) ^ 23 ≤ 1 := by exact_mod_cast h1
    have h' : (lo : ℝ) ^ 10 * (b : ℝ) ^ 23 ≤ r ^ 10 * (b : ℝ) ^ 23 := by rw [hr10]; exact this
    exact le_of_mul_le_mul_right h' hb23
  have hhi' : r ≤ (hi : ℝ) := by
    have hhipos : (0 : ℝ) ≤ (hi : ℝ) := by exact_mod_cast (le_of_lt hhi)
    apply le_of_pow_le_pow_left₀ (by norm_num : (10 : ℕ) ≠ 0) hhipos
    have : (1 : ℝ) ≤ (hi : ℝ) ^ 10 * (b : ℝ) ^ 23 := by exact_mod_cast h2
    have h' : r ^ 10 * (b : ℝ) ^ 23 ≤ (hi : ℝ) ^ 10 * (b : ℝ) ^ 23 := by rw [hr10]; exact this
    exact le_of_mul_le_mul_right h' hb23
  have he1 : 1 ≤ e := by
    rw [he]
    exact Real.one_le_rpow hb' (by positivity)
  have he2 : e ≤ 1 + ((b : ℝ) - 1) / 2 ^ 52 := by
    have hbern := rpow_one_add_le_one_add_mul_self (s := (b : ℝ) - 1) (by linarith)
      (p := (1 / (5 * 2 ^ 50) : ℝ)) (by positivity) (by norm_num)
    have hbb : (1 : ℝ) + ((b : ℝ) - 1) = (b : ℝ) := by ring
    rw [hbb] at hbern
    have hsm : (1 / (5 * 2 ^ 50) : ℝ) * ((b : ℝ) - 1) ≤ ((b : ℝ) - 1) / 2 ^ 52 := by
      have hnn : (0 : ℝ) ≤ (b : ℝ) - 1 := by linarith
      have hstep : (1 / (5 * 2 ^ 50) : ℝ) * ((b : ℝ) - 1) ≤ (1 / 2 ^ 52 : ℝ) * ((b : ℝ) - 1) :=
        mul_le_mul_of_nonneg_right (by norm_num) hnn
      calc (1 / (5 * 2 ^ 50) : ℝ) * ((b : ℝ) - 1) ≤ (1 / 2 ^ 52 : ℝ) * ((b : ℝ) - 1) := hstep
        _ = ((b : ℝ) - 1) / 2 ^ 52 := by ring
    rw [he]
    linarith
  have hlopos : (0 : ℝ) < (lo : ℝ) := by exact_mod_cast hlo
  have hhipos : (0 : ℝ) < (hi : ℝ) := by exact_mod_cast hhi
  have ht1 : (lo : ℝ) ≤ r * e := by nlinarith
  have ht2 : r * e ≤ (hi : ℝ) * (1 + ((b : ℝ) - 1) / 2 ^ 52) := by
    have hc : (0 : ℝ) ≤ 1 + ((b : ℝ) - 1) / 2 ^ 52 := by
      have : (0 : ℝ) ≤ ((b : ℝ) - 1) / 2 ^ 52 := div_nonneg (by linarith) (by positivity)
      linarith
    calc r * e ≤ r * (1 + ((b : ℝ) - 1) / 2 ^ 52) :=
          mul_le_mul_of_nonneg_left he2 (le_of_lt hrpos)
      _ ≤ (hi : ℝ) * (1 + ((b : ℝ) - 1) / 2 ^ 52) := mul_le_mul_of_nonneg_right hhi' hc
  have h3' : (hi : ℝ) * (1 + ((b : ℝ) - 1) / 2 ^ 52) * (1 - 1 / 2 ^ 20) ≤ (q : ℝ) := by
    have := (Rat.cast_le (K := ℝ)).mpr h3
    push_cast at this
    exact this
  have h4' : (q : ℝ) ≤ (lo : ℝ) * (1 + 1 / 2 ^ 20) := by
    have := (Rat.cast_le (K := ℝ)).mpr h4
    push_cast at this
    exact this
  unfold PowAccurate
  rw [hq, hsplit, abs_le]
  constructor
  · nlinarith
  · nlinarith

theorem samplePow_accurate_zero : AccurateAt samplePow 0 := by
  intro u hu
  rw [ieee_RsRo_zero] at hu
  cases hu
  exact powAccurate_of_bracket samplePow 49999 (155735982752 / 10 ^ 22)
    (155735982752 / 10 ^ 22) (155735982753 / 10 ^ 22) (by norm_num)
    (by simp [samplePow]) (by norm_num) (by norm_num) (by norm_num) (by norm_num)
    (by norm_num) (by norm_num)

theorem ieee_RsRo_one : RsRo Format.ieee 1 = fin (8384511 / 2048) := by decide!

theorem samplePow_accurate_one : AccurateAt samplePow 1 := by
  intro u hu
  rw [ieee_RsRo_one] at hu
  cases hu
  exact powAccurate_of_bracket samplePow (8384511 / 2048) (492107621245 / 10 ^ 20)
    (492107621245 / 10 ^ 20) (492107621246 / 10 ^ 20) (by norm_num)
    (by simp [samplePow]; norm_num) (by norm_num) (by norm_num) (by norm_num) (by norm_num)
    (by norm_num) (by norm_num)

end RealPower

/-! ## The gas computation without rounding -/

section ExactBasic

variable {K : Type} [LinearOrderedField K]

omit [LinearOrderedField K] in
theorem round_fin (v : FVal K) : Format.round fin v = v := by
  cases v <;> rfl

omit [LinearOrderedField K] in
theorem exact_toFloat (v : FVal K) : (Format.exact : Format K).toFloat v = v := round_fin v

theorem exact_mulf (a b : FVal K) : (Format.exact : Format K).mulf a b = FVal.mul a b :=
  round_fin _

theorem exact_divf (a b : FVal K) : (Format.exact : Format K).divf a b = FVal.div a b :=
  round_fin _

theorem exact_subf (a b : FVal K) : (Format.exact : Format K).subf a b = FVal.sub a b :=
  round_fin _

theorem exact_muld (a b : FVal K) : (Format.exact : Format K).muld a b = FVal.mul a b :=
  round_fin _

theorem exact_divd (a b : FVal K) : (Format.exact : Format K).divd a b = FVal.div a b :=
  round_fin _

theorem exact_ofInt (n : Int) : (Format.exact : Format K).ofInt n = fin (n : K) := rfl

omit [LinearOrderedField K] in
theorem exact_double (x : K) : (Format.exact : Format K).double x = fin x := rfl

theorem exact_Vout (a : Int) :
    (Vout Format.exact a : FVal K)
      = if (a : K) ≤ 0 then fin 0.0001 else fin ((a : K) / 4095 * 5) := by
  have h4095 : (4095.0 : K) ≠ 0 := by norm_num
  have key : ((a : K) / 4095.0 * 5.0 ≤ 0) ↔ (a : K) ≤ 0 := by
    constructor
    · intro h
      by_contra hc
      push_neg at hc
      have : 0 < (a : K) / 4095.0 * 5.0 := by positivity
      exact absurd h (not_le.mpr this)
    · intro h
      have : (a : K) / 4095.0 ≤ 0 := div_nonpos_of_nonpos_of_nonneg h (by norm_num)
      exact mul_nonpos_of_nonpos_of_nonneg this (by norm_num)
  simp only [Vout, ADC_MAX, Vcc, exact_toFloat, exact_double, exact_ofInt, exact_mulf,
    exact_divf, FVal.div, FVal.mul, FVal.le, if_neg h4095, Int.cast_zero,
    decide_eq_true_eq, key]
  split_ifs
  · rfl
  · norm_num

theorem exact_RsRo_of_Vout (a : Int) (v : K) (hv : v ≠ 0)
    (h : (Vout Format.exact a : FVal K) = fin v) :
    (Rs Format.exact a : FVal K) = fin (10000 * (5 / v - 1)) ∧
      (RsRo Format.exact a : FVal K) = fin (5 / v - 1) := by
  have h1 : (Rs Format.exact a : FVal K) = fin (10000 * (5 / v - 1)) := by
    simp only [Rs, h, Vcc, R_L, exact_toFloat, exact_double, exact_ofInt, exact_mulf,
      exact_divf, exact_subf, FVal.div, FVal.sub, FVal.mul, if_neg hv]
    norm_num
  refine ⟨h1, ?_⟩
  have h10 : (10000.0 : K) ≠ 0 := by norm_num
  simp only [RsRo, h1, Ro, exact_toFloat, exact_double, exact_divf, FVal.div, if_neg h10]
  congr 1
  norm_num

theorem exact_RsRo (a : Int) (h0 : 0 ≤ a) :
    (RsRo Format.exact a : FVal K) = if a = 0 then fin 49999 else fin (4095 / (a : K) - 1) := by
  by_cases ha : a = 0
  · subst ha
    have hV : (Vout Format.exact 0 : FVal K) = fin 0.0001 := by rw [exact_Vout]; simp
    rw [(exact_RsRo_of_Vout 0 (0.0001 : K) (by norm_num) hV).2, if_pos rfl]
    norm_num
  · have hpos : (0 : K) < (a : K) := by
      have : (0 : Int) < a := by omega
      exact_mod_cast this
    have hV : (Vout Format.exact a : FVal K) = fin ((a : K) / 4095 * 5) := by
      rw [exact_Vout, if_neg (not_le.mpr hpos)]
    have hne : (a : K) / 4095 * 5 ≠ 0 := by positivity
    rw [(exact_RsRo_of_Vout a _ hne hV).2, if_neg ha]
    congr 2
    field_simp
    ring

theorem exact_RsRo_pos (a : Int) (h0 : 0 ≤ a) (h1 : a ≤ 4094) :
    ∃ x : K, 0 < x ∧ (RsRo Format.exact a : FVal K) = fin x := by
  by_cases ha : a = 0
  · exact ⟨49999, by norm_num, by rw [exact_RsRo a h0, if_pos ha]⟩
  · have hapos : (0 : K) < (a : K) := by
      have : (0 : Int) < a := by omega
      exact_mod_cast this
    have ha' : (a : K) ≤ 4094 := by exact_mod_cast h1
    refine ⟨4095 / (a : K) - 1, ?_, by rw [exact_RsRo a h0, if_neg ha]⟩
    rw [sub_pos, lt_div_iff₀ hapos]
    linarith

theorem exact_carbon_level_fin (x : K) :
    carbon_level Format.exact (fin x) =
      if x < 0.08 then "LOW" else if x < 0.15 then "NORMAL"
      else if x < 0.20 then "HIGH" else "VERY HIGH" := by
  simp [carbon_level, FVal.lt, exact_double]

theorem exact_carbon_level_pinf :
    carbon_level Format.exact (pinf : FVal K) = "VERY HIGH" := by
  simp [carbon_level, FVal.lt, exact_double]

theorem band_mono (t1 t2 t3 x y : K) (hxy : x ≤ y) :
    bandRank (if x < t1 then "LOW" else if x < t2 then "NORMAL"
        else if x < t3 then "HIGH" else "VERY HIGH")
      ≤ bandRank (if y < t1 then "LOW" else if y < t2 then "NORMAL"
        else if y < t3 then "HIGH" else "VERY HIGH") := by
  split_ifs <;> first | decide | (exfalso; linarith)

end ExactBasic

section Exact

variable {K : Type} [LinearOrderedField K] [FloorRing K]

theorem exact_co2_of_RsRo (rpow : K → K → K) (a : Int) (x : K) (hx : 0 < x)
    (h : (RsRo Format.exact a : FVal K) = fin x) :
    co2_density Format.exact rpow a
      = fin (1000 * rpow x (-2.3) * 16.04 / 24.45 / 1000 * (44.01 / 16.04)) := by
  have hy0 : ¬ ((-2.3 : K) = 0) := by norm_num
  have h1 : ¬ ((24.45 : K) = 0) := by norm_num
  have h2 : ¬ ((1000.0 : K) = 0) := by norm_num
  have h3 : ¬ ((16.04 : K) = 0) := by norm_num
  simp only [co2_density, mg_per_m3, ppm, h, exact_toFloat, exact_double, exact_muld,
    exact_divd, FVal.pow, if_neg hy0, if_pos hx, FVal.mul, FVal.div, if_neg h1,
    if_neg h2, if_neg h3]
  norm_num

theorem exact_co2_lt (rpow : K → K → K)
    (hanti : ∀ u v : K, 0 < u → u < v → rpow v (-2.3) < rpow u (-2.3))
    (a b : Int) (h0 : 0 ≤ a) (hab : a < b) (hb : b ≤ 4094) :
    ∃ x y : K, co2_density Format.exact rpow a = fin x ∧
      co2_density Format.exact rpow b = fin y ∧ x < y := by
  have hbpos : (0 : K) < (b : K) := by
    have : (0 : Int) < b := by omega
    exact_mod_cast this
  have hb' : (b : K) ≤ 4094 := by exact_mod_cast hb
  have hRb : (RsRo Format.exact b : FVal K) = fin (4095 / (b : K) - 1) := by
    rw [exact_RsRo b (by omega), if_neg (by omega)]
  have hxb : (0 : K) < 4095 / (b : K) - 1 := by
    rw [sub_pos, lt_div_iff₀ hbpos]
    linarith
  have hscale : ∀ p q : K, p < q →
      1000 * p * 16.04 / 24.45 / 1000 * (44.01 / 16.04)
        < 1000 * q * 16.04 / 24.45 / 1000 * (44.01 / 16.04) := by
    intro p q hpq
    have e : ∀ r : K, 1000 * r * 16.04 / 24.45 / 1000 * (44.01 / 16.04)
        = r * (44.01 / 24.45) := by
      intro r
      norm_num
      ring
    rw [e p, e q]
    exact mul_lt_mul_of_pos_right hpq (by norm_num)
  by_cases ha : a = 0
  · subst ha
    have hRa : (RsRo Format.exact 0 : FVal K) = fin 49999 := by
      rw [exact_RsRo 0 le_rfl, if_pos rfl]
    have hlt : 4095 / (b : K) - 1 < 49999 := by
      have hb1 : (1 : K) ≤ (b : K) := by
        have : (1 : Int) ≤ b := by omega
        exact_mod_cast this
      have : 4095 / (b : K) ≤ 4095 := by
        rw [div_le_iff₀ hbpos]
        nlinarith
      linarith
    exact ⟨_, _, exact_co2_of_RsRo rpow 0 49999 (by norm_num) hRa,
      exact_co2_of_RsRo rpow b _ hxb hRb, hscale _ _ (hanti _ _ hxb hlt)⟩
  · have hapos : (0 : K) < (a : K) := by
      have : (0 : Int) < a := by omega
      exact_mod_cast this
    have hab' : (a : K) < (b : K) := by exact_mod_cast hab
    have hRa : (RsRo Format.exact a : FVal K) = fin (4095 / (a : K) - 1) := by
      rw [exact_RsRo a h0, if_neg ha]
    have hlt : 4095 / (b : K) - 1 < 4095 / (a : K) - 1 := by
      have : 4095 / (b : K) < 4095 / (a : K) :=
        div_lt_div_of_pos_left (by norm_num) hapos hab'
      linarith
    exact ⟨_, _, exact_co2_of_RsRo rpow a _ (lt_trans hxb hlt) hRa,
      exact_co2_of_RsRo rpow b _ hxb hRb, hscale _ _ (hanti _ _ hxb hlt)⟩

theorem real_rpow_anti (u v : ℝ) (hu : 0 < u) (huv : u < v) :
    v ^ (-2.3 : ℝ) < u ^ (-2.3 : ℝ) :=
  Real.rpow_lt_rpow_of_neg hu huv (by norm_num)

end Exact

/-! ## The carbon level of a binary32 density -/

section Bands

theorem float_grid_27 (q x : ℚ) (h : Format.ieee.float q = fin x) (hx : 1 / 16 ≤ x) :
    ∃ m : Int, x = (m : ℚ) / 2 ^ 27 := by
  have hk : pow2 (-4) ≤ x := by
    rw [pow2_eq]
    norm_num
    linarith
  obtain ⟨m, hm⟩ := roundNE_grid 24 (-149) 127 q x (-4) (by norm_num) h hk
  refine ⟨m, ?_⟩
  rw [hm, pow2_eq]
  norm_num
  ring

theorem float_grid_26 (q x : ℚ) (h : Format.ieee.float q = fin x) (hx : 1 / 8 ≤ x) :
    ∃ m : Int, x = (m : ℚ) / 2 ^ 26 := by
  have hk : pow2 (-3) ≤ x := by
    rw [pow2_eq]
    norm_num
    linarith
  obtain ⟨m, hm⟩ := roundNE_grid 24 (-149) 127 q x (-3) (by norm_num) h hk
  refine ⟨m, ?_⟩
  rw [hm, pow2_eq]
  norm_num
  ring

theorem no_float_near_0_08 (q x : ℚ) (h : Format.ieee.float q = fin x) (h1 : 0.08 ≤ x) :
    10737419 / 2 ^ 27 ≤ x := by
  obtain ⟨m, hm⟩ := float_grid_27 q x h (by norm_num at *; linarith)
  have hlt : (10737418 : ℚ) < (m : ℚ) := by
    rw [hm] at h1
    rw [le_div_iff₀ (by norm_num)] at h1
    norm_num at h1
    linarith
  have hm' : (10737419 : Int) ≤ m := by
    have : (10737418 : Int) < m := by exact_mod_cast hlt
    omega
  rw [hm]
  apply div_le_div_of_nonneg_right _ (by norm_num)
  exact_mod_cast hm'

theorem no_float_near_0_15 (q x : ℚ) (h : Format.ieee.float q = fin x)
    (h1 : 10066329 / 2 ^ 26 < x) : 10066330 / 2 ^ 26 ≤ x := by
  obtain ⟨m, hm⟩ := float_grid_26 q x h (by norm_num at *; linarith)
  have hlt : (10066329 : ℚ) < (m : ℚ) := by
    rw [hm] at h1
    rw [div_lt_div_iff_of_pos_right (by norm_num)] at h1
    exact h1
  have hm' : (10066330 : Int) ≤ m := by
    have : (10066329 : Int) < m := by exact_mod_cast hlt
    omega
  rw [hm]
  apply div_le_div_of_nonneg_right _ (by norm_num)
  exact_mod_cast hm'

theorem no_float_near_0_20 (q x : ℚ) (h : Format.ieee.float q = fin x)
    (h1 : 13421772 / 2 ^ 26 < x) : 13421773 / 2 ^ 26 ≤ x := by
  obtain ⟨m, hm⟩ := float_grid_26 q x h (by norm_num at *; linarith)
  have hlt : (13421772 : ℚ) < (m : ℚ) := by
    rw [hm] at h1
    rw [div_lt_div_iff_of_pos_right (by norm_num)] at h1
    exact h1
  have hm' : (13421773 : Int) ≤ m := by
    have : (13421772 : Int) < m := by exact_mod_cast hlt
    omega
  rw [hm]
  apply div_le_div_of_nonneg_right _ (by norm_num)
  exact_mod_cast hm'

theorem ieee_carbon_level_fin (x : ℚ) :
    carbon_level Format.ieee (fin x) =
      if x < 5764607523034235 / 72057594037927936 then "LOW"
      else if x < 5404319552844595 / 36028797018963968 then "NORMAL"
      else if x < 3602879701896397 / 18014398509481984 then "HIGH" else "VERY HIGH" := by
  simp only [carbon_level, ieee_lit_0_08, ieee_lit_0_15, ieee_lit_0_20, FVal.lt,
    decide_eq_true_eq]

theorem ieee_carbon_level_pinf : carbon_level Format.ieee (pinf : FVal ℚ) = "VERY HIGH" := by
  simp [carbon_level, ieee_lit_0_08, ieee_lit_0_15, ieee_lit_0_20, FVal.lt]

theorem ieee_thresholds (q x : ℚ) (h : Format.ieee.float q = fin x) :
    (x < 5764607523034235 / 72057594037927936 ↔ x < 0.08) ∧
    (x < 5404319552844595 / 36028797018963968 ↔ x < 0.15) ∧
    (x < 3602879701896397 / 18014398509481984 ↔ x < 0.20) := by
  refine ⟨⟨?_, ?_⟩, ⟨?_, ?_⟩, ⟨?_, ?_⟩⟩
  · intro hlt
    by_contra hc
    have := no_float_near_0_08 q x h (not_lt.mp hc)
    norm_num at *
    linarith
  · intro hlt
    norm_num at *
    linarith
  · intro hlt
    norm_num at *
    linarith
  · intro hlt
    by_contra hc
    have := no_float_near_0_15 q x h (by norm_num at *; linarith)
    norm_num at *
    linarith
  · intro hlt
    by_contra hc
    have := no_float_near_0_20 q x h (by norm_num at *; linarith)
    norm_num at *
    linarith
  · intro hlt
    norm_num at *
    linarith

theorem ieee_band_rule (q x : ℚ) (h : Format.ieee.float q = fin x) :
    (carbon_level Format.ieee (fin x) = "LOW" ↔ x < 0.08) ∧
    (carbon_level Format.ieee (fin x) = "NORMAL" ↔ 0.08 ≤ x ∧ x < 0.15) ∧
    (carbon_level Format.ieee (fin x) = "HIGH" ↔ 0.15 ≤ x ∧ x < 0.20) ∧
    (carbon_level Format.ieee (fin x) = "VERY HIGH" ↔ 0.20 ≤ x) := by
  obtain ⟨t1, t2, t3⟩ := ieee_thresholds q x h
  rw [ieee_carbon_level_fin]
  simp only [t1, t2, t3]
  refine ⟨?_, ?_, ?_, ?_⟩ <;> split_ifs with a b c <;> simp_all <;> intros <;> linarith

end Bands

/-! ## The CO2 density in binary32 -/

section Density

theorem ieee_co2_fin (rpow : ℚ → ℚ → ℚ) (a : Int) (h0 : 0 ≤ a) (h1 : a ≤ 4094)
    (hacc : AccurateAt rpow a) :
    ∃ u d : ℚ, RsRo Format.ieee a = fin u ∧ co2_density Format.ieee rpow a = fin d ∧
      0 < rpow u exponent ∧
      9 / 5 * rpow u exponent * (1 - 1 / 2 ^ 21) ≤ d ∧
      d ≤ 9 / 5 * rpow u exponent * (1 + 1 / 2 ^ 21) := by
  obtain ⟨u, hu, hu1, hu2⟩ := ieee_RsRo_range a h0 h1
  have hupos : 0 < u := lt_of_lt_of_le (by norm_num) hu1
  obtain ⟨hp1, hp2⟩ := accurate_range rpow u hu1 hu2 (hacc u hu)
  obtain ⟨d, hd, hdl, hdu⟩ := ieee_co2_of_pow rpow a u hupos hu hp1 hp2
  exact ⟨u, d, hu, hd, lt_of_lt_of_le (by norm_num) hp1, hdl, hdu⟩

theorem ieee_co2_lt (rpow : ℚ → ℚ → ℚ) (a b : Int) (h0 : 0 ≤ a) (hab : a < b)
    (hb : b ≤ 4094) (hacca : AccurateAt rpow a) (haccb : AccurateAt rpow b) :
    ∃ x y : ℚ, co2_density Format.ieee rpow a = fin x ∧
      co2_density Format.ieee rpow b = fin y ∧ x < y := by
  obtain ⟨u, x, hu, hx, hpu, _, hxu⟩ := ieee_co2_fin rpow a h0 (by omega) hacca
  obtain ⟨v, y, hv, hy, hpv, hyl, _⟩ := ieee_co2_fin rpow b (by omega) hb haccb
  obtain ⟨u', v', hu', hv', hgap⟩ := ieee_RsRo_gap a b h0 hab hb
  obtain ⟨w, hw, hw1, _⟩ := ieee_RsRo_range b (by omega) hb
  rw [hu] at hu'
  rw [hv] at hv'
  cases hu'
  cases hv'
  have hvpos : 0 < v := by
    rw [hv] at hw
    cases hw
    exact lt_of_lt_of_le (by norm_num) hw1
  have hstep := accurate_gap rpow u v hvpos hgap (hacca u hu) (haccb v hv)
  refine ⟨x, y, hx, hy, ?_⟩
  norm_num at *
  linarith

theorem ieee_band_mono (x y : ℚ) (hxy : x ≤ y) :
    bandRank (carbon_level Format.ieee (fin x)) ≤ bandRank (carbon_level Format.ieee (fin y)) := by
  rw [ieee_carbon_level_fin, ieee_carbon_level_fin]
  exact band_mono _ _ _ x y hxy

theorem accurate_small (rpow : ℚ → ℚ → ℚ) (hacc : PowAccurate rpow 49999 exponent) :
    rpow 49999 exponent ≤ 1 / 10 ^ 9 := by
  have h1 : ((49999 : ℚ) : ℝ) ^ (exponent : ℝ) ≤ ((49999 : ℚ) : ℝ) ^ (-2 : ℝ) :=
    Real.rpow_le_rpow_of_exponent_le (by norm_num) exponent_cast.2
  have h2 : ((49999 : ℚ) : ℝ) ^ (-2 : ℝ) = (((49999 : ℚ) : ℝ) ^ 2)⁻¹ := by
    rw [Real.rpow_neg (by norm_num)]
    congr 1
    exact_mod_cast Real.rpow_natCast ((49999 : ℚ) : ℝ) 2
  rw [h2] at h1
  obtain ⟨_, hb⟩ := abs_le.mp hacc
  have : ((rpow 49999 exponent : ℚ) : ℝ) ≤ (((1 / 10 ^ 9 : ℚ)) : ℝ) := by
    push_cast
    norm_num at *
    linarith
  exact (Rat.cast_le (K := ℝ)).mp this

end Density

/-! ## Time stamp and loop -/

section Stamp

theorem toDigits_two (n : Nat) (h : n < 100) :
    List.replicate (2 - (Nat.toDigits 10 n).length) '0' ++ Nat.toDigits 10 n
      = [Nat.digitChar (n / 10 % 10), Nat.digitChar (n % 10)] := by
  interval_cases n <;> rfl

theorem toDigits_four (n : Nat) (h1 : 1000 ≤ n) (h2 : n ≤ 9999) :
    Nat.toDigits 10 n = [Nat.digitChar (n / 1000 % 10), Nat.digitChar (n / 100 % 10),
      Nat.digitChar (n / 10 % 10), Nat.digitChar (n % 10)] := by
  have e1 : n / 10 ≠ 0 := by omega
  have e2 : n / 10 / 10 ≠ 0 := by omega
  have e3 : n / 10 / 10 / 10 ≠ 0 := by omega
  have e4 : n / 10 / 10 / 10 / 10 = 0 := by omega
  obtain ⟨k, rfl⟩ : ∃ k, n = k + 4 := ⟨n - 4, by omega⟩
  simp only [Nat.toDigits, Nat.toDigitsCore, e1, e2, e3, e4, if_true, if_false]
  have a1 : (k + 4) / 10 / 10 / 10 % 10 = (k + 4) / 1000 % 10 := by omega
  have a2 : (k + 4) / 10 / 10 % 10 = (k + 4) / 100 % 10 := by omega
  simp [a1, a2]

theorem decimal2_of_lt (n : Int) (h0 : 0 ≤ n) (h1 : n < 100) :
    decimal2 n = [Nat.digitChar (n.toNat / 10 % 10), Nat.digitChar (n.toNat % 10)] := by
  obtain ⟨k, rfl⟩ := Int.eq_ofNat_of_zero_le h0
  have hk : k < 100 := by omega
  have hneg : ¬ ((k : Int) < 0) := by omega
  simp only [decimal2, if_neg hneg, Int.natAbs_ofNat, Int.toNat_ofNat]
  exact toDigits_two k hk

theorem decimal_of_four (n : Int) (h0 : 1000 ≤ n) (h1 : n ≤ 9999) :
    decimal n = [Nat.digitChar (n.toNat / 1000 % 10), Nat.digitChar (n.toNat / 100 % 10),
      Nat.digitChar (n.toNat / 10 % 10), Nat.digitChar (n.toNat % 10)] := by
  obtain ⟨k, rfl⟩ := Int.eq_ofNat_of_zero_le (by omega : 0 ≤ n)
  have hneg : ¬ ((k : Int) < 0) := by omega
  simp only [decimal, if_neg hneg, Int.natAbs_ofNat, Int.toNat_ofNat]
  exact toDigits_four k (by omega) (by omega)

theorem minuteStamp_eq (t : tm) (hy0 : 1000 ≤ t.tm_year + 1900) (hy1 : t.tm_year + 1900 ≤ 9999)
    (hmon0 : 0 ≤ t.tm_mon) (hmon1 : t.tm_mon ≤ 11) (hday0 : 1 ≤ t.tm_mday)
    (hday1 : t.tm_mday ≤ 31) (hhour0 : 0 ≤ t.tm_hour) (hhour1 : t.tm_hour ≤ 23)
    (hmin0 : 0 ≤ t.tm_min) (hmin1 : t.tm_min ≤ 59) :
    minuteStamp t = some (stampText (t.tm_year + 1900).toNat (t.tm_mon + 1).toNat
      t.tm_mday.toNat t.tm_hour.toNat t.tm_min.toNat) := by
  have hfmt : "%Y-%m-%d %H:%M:00".toList =
      ['%', 'Y', '-', '%', 'm', '-', '%', 'd', ' ', '%', 'H', ':', '%', 'M', ':', '0', '0'] :=
    rfl
  simp only [minuteStamp, strftime, hfmt, expand, conversion,
    decimal_of_four _ hy0 hy1, decimal2_of_lt _ (by omega : 0 ≤ t.tm_mon + 1) (by omega),
    decimal2_of_lt _ (by omega : 0 ≤ t.tm_mday) (by omega),
    decimal2_of_lt _ hhour0 (by omega), decimal2_of_lt _ hmin0 (by omega)]
  simp [stampText]

end Stamp

section LoopLemmas

variable {K : Type} [LinearOrderedField K] [FloorRing K] (F : Format K)

theorem mem_posted_loop (rpow : K → K → K) (c : Cycle K) (r : Reading K)
    (hr : r ∈ posted (loop F rpow c)) :
    c.connected = true ∧ isnan c.humidity = false ∧ isnan c.temperature_c = false ∧
      ∃ t, c.timeinfo = some t ∧ r = reading F rpow c t := by
  unfold loop at hr
  split_ifs at hr with h1 h2
  · simp [posted] at hr
  · simp [posted] at hr
  · cases ht : c.timeinfo with
    | none => simp [ht, posted] at hr
    | some t =>
      simp only [ht, posted, List.cons_append, List.nil_append, List.mem_singleton] at hr
      simp only [Bool.or_eq_true, not_or, Bool.not_eq_true] at h2
      exact ⟨by simpa using h1, h2.1, h2.2, t, rfl, hr⟩

theorem posted_loop_of_reads (rpow : K → K → K) (c : Cycle K) (t : tm)
    (hc : c.connected = true) (hh : isnan c.humidity = false)
    (ht : isnan c.temperature_c = false) (htime : c.timeinfo = some t) :
    posted (loop F rpow c) = [reading F rpow c t] := by
  simp [loop, hc, hh, ht, htime, posted]

end LoopLemmas

/-! ## The claims -/

/-- C1 as stated fails: the `float` that holds 0.08 is 5368709/2^26, below the
threshold, and is classified LOW, not NORMAL. -/
theorem stored_0_08_not_normal :
    Format.ieee.toFloat (Format.ieee.double 0.08) = fin (5368709 / 67108864) ∧
    (5368709 / 67108864 : ℚ) < 0.08 ∧
    carbon_level Format.ieee (Format.ieee.toFloat (Format.ieee.double 0.08)) = "LOW" ∧
    carbon_level Format.ieee (Format.ieee.toFloat (Format.ieee.double 0.08)) ≠ "NORMAL" := by
  refine ⟨by decide!, by norm_num, by decide!, by decide!⟩

/-- C1 amended: the carbon level is one of LOW, NORMAL, HIGH, VERY HIGH and is fixed by
the binary32 CO2 density alone: LOW below 0.08, NORMAL from 0.08 to below 0.15, HIGH
from 0.15 to below 0.20, VERY HIGH from 0.20 on (an infinite density included).  The
decimal samples, once stored in the `float`, give: 0.0799 LOW, 0.08 LOW, 0.1499 NORMAL,
0.15 HIGH, 0.1999 HIGH, 0.20 VERY HIGH.  The level a cycle posts is that function of
the density it posts, which is a `float`. -/
theorem carbon_level_bands :
    (∀ d : FVal ℚ, carbon_level Format.ieee d ∈ ["LOW", "NORMAL", "HIGH", "VERY HIGH"]) ∧
    (∀ (v : FVal ℚ) (x : ℚ), Format.ieee.toFloat v = fin x →
      (carbon_level Format.ieee (fin x) = "LOW" ↔ x < 0.08) ∧
      (carbon_level Format.ieee (fin x) = "NORMAL" ↔ 0.08 ≤ x ∧ x < 0.15) ∧
      (carbon_level Format.ieee (fin x) = "HIGH" ↔ 0.15 ≤ x ∧ x < 0.20) ∧
      (carbon_level Format.ieee (fin x) = "VERY HIGH" ↔ 0.20 ≤ x)) ∧
    carbon_level Format.ieee (pinf : FVal ℚ) = "VERY HIGH" ∧
    (carbon_level Format.ieee (Format.ieee.toFloat (Format.ieee.double 0.0799)) = "LOW" ∧
      carbon_level Format.ieee (Format.ieee.toFloat (Format.ieee.double 0.08)) = "LOW" ∧
      carbon_level Format.ieee (Format.ieee.toFloat (Format.ieee.double 0.1499)) = "NORMAL" ∧
      carbon_level Format.ieee (Format.ieee.toFloat (Format.ieee.double 0.15)) = "HIGH" ∧
      carbon_level Format.ieee (Format.ieee.toFloat (Format.ieee.double 0.1999)) = "HIGH" ∧
      carbon_level Format.ieee (Format.ieee.toFloat (Format.ieee.double 0.20))
        = "VERY HIGH") ∧
    (∀ (rpow : ℚ → ℚ → ℚ) (c : Cycle ℚ) (r : Reading ℚ),
      r ∈ posted (loop Format.ieee rpow c) →
      r.co2_density = co2_density Format.ieee rpow c.adcReading ∧
      r.carbon_level = carbon_level Format.ieee r.co2_density ∧
      ∃ v : FVal ℚ, r.co2_density = Format.ieee.toFloat v) := by
  refine ⟨?_, ?_, ieee_carbon_level_pinf, ?_, ?_⟩
  · intro d
    unfold carbon_level
    split_ifs <;> simp
  · intro v x hv
    cases v with
    | fin q => exact ieee_band_rule q x hv
    | pinf => cases hv
    | ninf => cases hv
    | nan => cases hv
  · refine ⟨by decide!, by decide!, by decide!, by decide!, by decide!, by decide!⟩
  · intro rpow c r hr
    obtain ⟨_, _, _, t, _, rfl⟩ := mem_posted_loop Format.ieee rpow c r hr
    exact ⟨rfl, rfl, _, rfl⟩

/-- C4 as stated fails: at the reading 0 the voltage is the `float` stored for 0.0001,
which is below 0.0001. -/
theorem Vout_zero_below_clamp :
    Vout Format.ieee 0 = fin (13743895 / 137438953472) ∧
    (13743895 / 137438953472 : ℚ) < 0.0001 := by
  refine ⟨ieee_Vout_zero, by norm_num⟩

/-- C4 amended: for an ADC reading between 0 and 4095 the voltage used by the gas
computation is a finite `float` between the value stored for the literal 0.0001
(13743895/2^37, about 9.99999975e-05) and 5.0, hence not zero, and `Vcc / Vout` is the
quotient of two finite numbers, not a division by zero. -/
theorem Vout_bounds (a : Int) (h0 : 0 ≤ a) (h1 : a ≤ 4095) :
    ∃ v : ℚ, Vout Format.ieee a = fin v ∧
      Format.ieee.toFloat (Format.ieee.double 0.0001) = fin (13743895 / 137438953472) ∧
      13743895 / 137438953472 ≤ v ∧ v ≤ 5.0 ∧ 0 < v ∧ v ≠ 0 ∧
      FVal.div (Vcc Format.ieee) (Vout Format.ieee a) = fin (5.0 / v) := by
  have key : ∀ v : ℚ, Vout Format.ieee a = fin v → 13743895 / 137438953472 ≤ v → v ≤ 5.0 →
      ∃ v : ℚ, Vout Format.ieee a = fin v ∧
        Format.ieee.toFloat (Format.ieee.double 0.0001) = fin (13743895 / 137438953472) ∧
        13743895 / 137438953472 ≤ v ∧ v ≤ 5.0 ∧ 0 < v ∧ v ≠ 0 ∧
        FVal.div (Vcc Format.ieee) (Vout Format.ieee a) = fin (5.0 / v) := by
    intro v hv hl hu
    have hpos : 0 < v := lt_of_lt_of_le (by norm_num) hl
    refine ⟨v, hv, ieee_clamp, hl, hu, hpos, ne_of_gt hpos, ?_⟩
    rw [hv, ieee_Vcc]
    simp only [FVal.div, if_neg (ne_of_gt hpos)]
    norm_num
  rcases eq_or_lt_of_le h0 with h | h
  · subst h
    exact key _ ieee_Vout_zero (le_refl _) (by norm_num)
  · rcases eq_or_lt_of_le h1 with h' | h'
    · subst h'
      exact key _ ieee_Vout_max (by norm_num) (by norm_num)
    · obtain ⟨v, hv, hl, hu⟩ := ieee_Vout_bounds a (by omega) (by omega)
      have ha1 : (1 : ℚ) ≤ (a : ℚ) := by exact_mod_cast (by omega : (1 : Int) ≤ a)
      have ha2 : (a : ℚ) ≤ 4094 := by exact_mod_cast (by omega : a ≤ 4094)
      exact key v hv (by norm_num at *; linarith) (by norm_num at *; linarith)

/-- C4 amended, at the reading 2048. -/
theorem Vout_bounds_witness :
    ∃ v : ℚ, Vout Format.ieee 2048 = fin v ∧
      Format.ieee.toFloat (Format.ieee.double 0.0001) = fin (13743895 / 137438953472) ∧
      13743895 / 137438953472 ≤ v ∧ v ≤ 5.0 ∧ 0 < v ∧ v ≠ 0 ∧
      FVal.div (Vcc Format.ieee) (Vout Format.ieee 2048) = fin (5.0 / v) :=
  Vout_bounds 2048 (by decide) (by decide)

/-- C7: at the maximum reading 4095 the voltage is exactly 5.0, `Rs` and `Rs/Ro` are
exactly 0, `ppm` is 1000 times `pow(0, -2.3)`, and whatever the library computes on
positive bases the CO2 density is the one value `+inf` and the carbon level is
VERY HIGH, one of the four bands; a cycle whose reads succeed posts exactly that
record.  This holds in binary32/binary64 arithmetic and without rounding alike. -/
theorem max_reading_defined {K : Type} [LinearOrderedField K] [FloorRing K]
    (rpow : K → K → K) (rpowQ : ℚ → ℚ → ℚ) :
    ((Vout Format.exact 4095 : FVal K) = fin 5.0 ∧
      (Rs Format.exact 4095 : FVal K) = fin 0 ∧
      (RsRo Format.exact 4095 : FVal K) = fin 0 ∧
      ppm Format.exact rpow 4095 = FVal.mul (fin 1000.0) (FVal.pow rpow (fin 0) (fin (-2.3))) ∧
      ppm Format.exact rpow 4095 = pinf ∧
      co2_density Format.exact rpow 4095 = pinf ∧
      carbon_level Format.exact (co2_density Format.exact rpow 4095) = "VERY HIGH" ∧
      carbon_level Format.exact (co2_density Format.exact rpow 4095)
        ∈ ["LOW", "NORMAL", "HIGH", "VERY HIGH"] ∧
      (∀ (c : Cycle K) (t : tm), c.connected = true → c.adcReading = 4095 →
        isnan c.humidity = false → isnan c.temperature_c = false → c.timeinfo = some t →
        ∃ r, posted (loop Format.exact rpow c) = [r] ∧ r.co2_density = pinf ∧
          r.carbon_level = "VERY HIGH")) ∧
    (Vout Format.ieee 4095 = fin 5.0 ∧
      Rs Format.ieee 4095 = fin 0 ∧
      RsRo Format.ieee 4095 = fin 0 ∧
      ppm Format.ieee rpowQ 4095
        = Format.ieee.toFloat (Format.ieee.muld (Format.ieee.double 1000.0)
            (FVal.pow rpowQ (fin 0) (Format.ieee.double (-2.3)))) ∧
      FVal.pow rpowQ (fin 0) (Format.ieee.double (-2.3)) = pinf ∧
      ppm Format.ieee rpowQ 4095 = pinf ∧
      co2_density Format.ieee rpowQ 4095 = pinf ∧
      carbon_level Format.ieee (co2_density Format.ieee rpowQ 4095) = "VERY HIGH" ∧
      carbon_level Format.ieee (co2_density Format.ieee rpowQ 4095)
        ∈ ["LOW", "NORMAL", "HIGH", "VERY HIGH"] ∧
      (∀ (c : Cycle ℚ) (t : tm), c.connected = true → c.adcReading = 4095 →
        isnan c.humidity = false → isnan c.temperature_c = false → c.timeinfo = some t →
        ∃ r, posted (loop Format.ieee rpowQ c) = [r] ∧ r.co2_density = pinf ∧
          r.carbon_level = "VERY HIGH")) := by
  constructor
  · have hV : (Vout Format.exact 4095 : FVal K) = fin 5 := by
      rw [exact_Vout]
      norm_num
    obtain ⟨hRs, hRsRo⟩ := exact_RsRo_of_Vout (K := K) 4095 5 (by norm_num) hV
    have hRs0 : (Rs Format.exact 4095 : FVal K) = fin 0 := by rw [hRs]; norm_num
    have hRsRo0 : (RsRo Format.exact 4095 : FVal K) = fin 0 := by rw [hRsRo]; norm_num
    have hy0 : ¬ ((-2.3 : K) = 0) := by norm_num
    have hyneg : (-2.3 : K) < 0 := by norm_num
    have hpow : FVal.pow rpow (fin (0 : K)) (fin (-2.3)) = pinf := by
      simp [FVal.pow, hy0, hyneg]
    have hk : ¬ ((1000.0 : K) = 0) := by norm_num
    have hk' : ¬ ((1000.0 : K) < 0) := by norm_num
    have hppm0 : ppm Format.exact rpow 4095
        = FVal.mul (fin 1000.0) (FVal.pow rpow (fin 0) (fin (-2.3))) := by
      simp only [ppm, hRsRo0, exact_toFloat, exact_muld, exact_double]
    have hppm : ppm Format.exact rpow 4095 = pinf := by
      rw [hppm0, hpow]
      simp only [FVal.mul, if_neg hk, infOfSign, if_neg hk']
    have hq : ¬ ((16.04 : K) = 0) := by norm_num
    have hq' : ¬ ((16.04 : K) < 0) := by norm_num
    have hr : ¬ ((24.45 : K) < 0) := by norm_num
    have hs : ¬ ((44.01 / 16.04 : K) = 0) := by norm_num
    have hs' : ¬ ((44.01 / 16.04 : K) < 0) := by norm_num
    have hco2 : co2_density Format.exact rpow 4095 = pinf := by
      simp only [co2_density, mg_per_m3, hppm, exact_toFloat, exact_muld, exact_divd,
        exact_double, FVal.mul, FVal.div, if_neg hq, infOfSign, if_neg hq', if_neg hr,
        if_neg hk', if_neg hs, if_neg hs']
    refine ⟨by rw [hV]; norm_num, hRs0, hRsRo0, hppm0, hppm, hco2,
      by rw [hco2]; exact exact_carbon_level_pinf,
      by rw [hco2, exact_carbon_level_pinf]; simp, ?_⟩
    intro c t hc ha hh ht htime
    refine ⟨reading Format.exact rpow c t,
      posted_loop_of_reads Format.exact rpow c t hc hh ht htime, ?_, ?_⟩
    · simp [reading, ha, hco2]
    · simp [reading, ha, hco2, exact_carbon_level_pinf]
  · have hpow : FVal.pow rpowQ (fin 0) (Format.ieee.double (-2.3)) = pinf := by
      rw [ieee_lit_exponent]
      have hy0 : ¬ (exponent = 0) := by unfold exponent; norm_num
      have hyneg : exponent < 0 := by unfold exponent; norm_num
      simp [FVal.pow, hy0, hyneg]
    have hppm0 : ppm Format.ieee rpowQ 4095
        = Format.ieee.toFloat (Format.ieee.muld (Format.ieee.double 1000.0)
            (FVal.pow rpowQ (fin 0) (Format.ieee.double (-2.3)))) := by
      simp only [ppm, ieee_RsRo_max]
    have hppm : ppm Format.ieee rpowQ 4095 = pinf := by
      rw [hppm0, hpow, ieee_lit_1000, muld_fin_pinf _ _ (by norm_num), toFloat_pinf]
    have hmg : mg_per_m3 Format.ieee rpowQ 4095 = pinf := by
      rw [mg_per_m3, hppm, ieee_lit_16_04, ieee_lit_24_45, muld_pinf_fin _ _ (by norm_num),
        divd_pinf_fin _ _ (by norm_num), toFloat_pinf]
    have hco2 : co2_density Format.ieee rpowQ 4095 = pinf := by
      rw [co2_density, hmg, ieee_lit_1000, ieee_lit_quotient, divd_pinf_fin _ _ (by norm_num),
        muld_pinf_fin _ _ (by norm_num), toFloat_pinf]
    refine ⟨by rw [ieee_Vout_max]; norm_num, ieee_Rs_max, ieee_RsRo_max, hppm0, hpow, hppm,
      hco2, by rw [hco2]; exact ieee_carbon_level_pinf,
      by rw [hco2, ieee_carbon_level_pinf]; simp, ?_⟩
    intro c t hc ha hh ht htime
    refine ⟨reading Format.ieee rpowQ c t,
      posted_loop_of_reads Format.ieee rpowQ c t hc hh ht htime, ?_, ?_⟩
    · simp [reading, ha, hco2]
    · simp [reading, ha, hco2, ieee_carbon_level_pinf]

/-- C2: when the humidity read or the temperature read is NaN the cycle posts
nothing and makes no call that builds or sends a request, whatever the ADC
reading, the clock, the connection and the arithmetic are. -/
theorem no_request_on_nan {K : Type} [LinearOrderedField K] [FloorRing K] (F : Format K)
    (rpow : K → K → K) (c : Cycle K)
    (h : isnan c.humidity = true ∨ isnan c.temperature_c = true) :
    posted (loop F rpow c) = [] ∧ ∀ e ∈ loop F rpow c, e.isRequest = false := by
  have hor : (isnan c.humidity || isnan c.temperature_c) = true := by
    rcases h with h | h <;> simp [h]
  unfold loop
  by_cases hc : c.connected = false
  · simp [hc, posted, Effect.isRequest]
  · simp [hc, hor, posted, Effect.isRequest]

/-- C2 on a connected cycle whose humidity read is NaN. -/
theorem no_request_on_nan_witness :
    posted (loop Format.ieee samplePow humidityFailCycle) = [] ∧
      ∀ e ∈ loop Format.ieee samplePow humidityFailCycle, e.isRequest = false :=
  no_request_on_nan Format.ieee samplePow humidityFailCycle (Or.inl rfl)

/-- C3 as stated fails: a cycle that starts disconnected performs no 60-second
delay (it sleeps for no time at all). -/
theorem offline_cycle_has_no_delay :
    offlineCycle.connected = false ∧
    Effect.delay 60000 ∉ loop Format.ieee samplePow offlineCycle ∧
    slept (loop Format.ieee samplePow offlineCycle) = 0 := by
  refine ⟨rfl, ?_, ?_⟩
  · simp [loop, offlineCycle]
  · simp [loop, offlineCycle, slept]

/-- C3 amended: a cycle that starts while the network is not connected only checks
the connection: it reads no sensor, logs nothing, builds and posts nothing and
performs no delay. -/
theorem offline_cycle_skips_everything {K : Type} [LinearOrderedField K] [FloorRing K]
    (F : Format K) (rpow : K → K → K) (c : Cycle K) (hc : c.connected = false) :
    loop F rpow c = [.wifiStatus] ∧
    (∀ e ∈ loop F rpow c, e.isSensorRead = false ∧ e.isLog = false ∧ e.isRequest = false ∧
      e.isDelay = false) ∧
    posted (loop F rpow c) = [] ∧
    slept (loop F rpow c) = 0 := by
  have hl : loop F rpow c = [.wifiStatus] := by simp [loop, hc]
  rw [hl]
  simp [Effect.isSensorRead, Effect.isLog, Effect.isRequest, Effect.isDelay, posted, slept]

/-- C3 amended, on a disconnected cycle. -/
theorem offline_cycle_skips_everything_witness :
    loop Format.ieee samplePow offlineCycle = [.wifiStatus] ∧
    (∀ e ∈ loop Format.ieee samplePow offlineCycle, e.isSensorRead = false ∧
      e.isLog = false ∧ e.isRequest = false ∧ e.isDelay = false) ∧
    posted (loop Format.ieee samplePow offlineCycle) = [] ∧
    slept (loop Format.ieee samplePow offlineCycle) = 0 :=
  offline_cycle_skips_everything Format.ieee samplePow offlineCycle rfl

/-- C6: a connected cycle sleeps exactly 2000 ms, with no 60000 ms delay, when the
humidity or temperature read is NaN or the local time is not obtained; otherwise
it reaches the POST and sleeps exactly 60000 ms, whatever code the POST returns. -/
theorem connected_cycle_sleep {K : Type} [LinearOrderedField K] [FloorRing K]
    (F : Format K) (rpow : K → K → K) (c : Cycle K) (hc : c.connected = true) :
    ((isnan c.humidity = true ∨ isnan c.temperature_c = true ∨ c.timeinfo = none) →
      slept (loop F rpow c) = 2000 ∧ Effect.delay 60000 ∉ loop F rpow c ∧
        posted (loop F rpow c) = []) ∧
    (posted (loop F rpow c) ≠ [] → slept (loop F rpow c) = 60000) ∧
    (isnan c.humidity = false → isnan c.temperature_c = false → c.timeinfo ≠ none →
      ∀ code : Int, posted (loop F rpow { c with httpResponseCode := code }) ≠ [] ∧
        slept (loop F rpow { c with httpResponseCode := code }) = 60000) := by
  have hc' : ¬ (c.connected = false) := by simp [hc]
  refine ⟨?_, ?_, ?_⟩
  · intro h
    by_cases hor : (isnan c.humidity || isnan c.temperature_c) = true
    · simp [loop, hc, hor, slept, posted]
    · have ht : c.timeinfo = none := by
        rcases h with h | h | h
        · simp [h] at hor
        · simp [h] at hor
        · exact h
      simp [loop, hc, hor, ht, slept, posted]
  · intro hp
    by_cases hor : (isnan c.humidity || isnan c.temperature_c) = true
    · simp [loop, hc, hor, posted] at hp
    · cases ht : c.timeinfo with
      | none => simp [loop, hc, hor, ht, posted] at hp
      | some t => simp [loop, hc, hor, ht, slept]
  · intro hh htc ht code
    cases htime : c.timeinfo with
    | none => exact absurd htime ht
    | some t => simp [loop, hc, hh, htc, htime, slept, posted]

/-- C6 on a connected cycle whose POST returns 500. -/
theorem connected_cycle_sleep_witness :
    posted (loop Format.ieee samplePow refusedCycle) ≠ [] ∧
      slept (loop Format.ieee samplePow refusedCycle) = 60000 :=
  ⟨by simp [loop, refusedCycle, posted],
    (connected_cycle_sleep Format.ieee samplePow refusedCycle rfl).2.1
      (by simp [loop, refusedCycle, posted])⟩

/-- C5: for a broken-down time with a four-digit year and fields in range the
minute stamp is the 19-character text "YYYY-MM-DD HH:MM:00" made of the zero-padded
year, month, day, hour and minute and the literal seconds "00"; it is the same for
every value of the seconds field, the minute is the field itself, and
2024-01-05 14:37:52 gives "2024-01-05 14:37:00". -/
theorem minute_stamp_format (t : tm) (hy0 : 1000 ≤ t.tm_year + 1900)
    (hy1 : t.tm_year + 1900 ≤ 9999) (hmon0 : 0 ≤ t.tm_mon) (hmon1 : t.tm_mon ≤ 11)
    (hday0 : 1 ≤ t.tm_mday) (hday1 : t.tm_mday ≤ 31) (hhour0 : 0 ≤ t.tm_hour)
    (hhour1 : t.tm_hour ≤ 23) (hmin0 : 0 ≤ t.tm_min) (hmin1 : t.tm_min ≤ 59) :
    minuteStamp t = some (stampText (t.tm_year + 1900).toNat (t.tm_mon + 1).toNat
      t.tm_mday.toNat t.tm_hour.toNat t.tm_min.toNat) ∧
    (∀ s, minuteStamp t = some s → s.length = 19) ∧
    (∀ sec : Int, minuteStamp { t with tm_sec := sec } = minuteStamp t) ∧
    minuteStamp sampleTime = some "2024-01-05 14:37:00" := by
  have h := minuteStamp_eq t hy0 hy1 hmon0 hmon1 hday0 hday1 hhour0 hhour1 hmin0 hmin1
  refine ⟨h, ?_, ?_, by decide⟩
  · intro s hs
    rw [h] at hs
    cases hs
    rfl
  · intro sec
    rw [h]
    exact minuteStamp_eq { t with tm_sec := sec } hy0 hy1 hmon0 hmon1 hday0 hday1 hhour0
      hhour1 hmin0 hmin1

/-- C5 at 2024-01-05 14:37:52. -/
theorem minute_stamp_format_witness :
    minuteStamp sampleTime = some "2024-01-05 14:37:00" ∧
    (∀ s, minuteStamp sampleTime = some s → s.length = 19) ∧
    (∀ sec : Int, minuteStamp { sampleTime with tm_sec := sec } = minuteStamp sampleTime) :=
  ⟨(minute_stamp_format sampleTime (by decide) (by decide) (by decide) (by decide)
      (by decide) (by decide) (by decide) (by decide) (by decide) (by decide)).1,
    (minute_stamp_format sampleTime (by decide) (by decide) (by decide) (by decide)
      (by decide) (by decide) (by decide) (by decide) (by decide) (by decide)).2.1,
    (minute_stamp_format sampleTime (by decide) (by decide) (by decide) (by decide)
      (by decide) (by decide) (by decide) (by decide) (by decide) (by decide)).2.2.1⟩

/-- C8 as stated fails: at the reading 0 the `float` voltage is not 0.0001 and the
`float` resistance is not 499990000 (it is 499990016). -/
theorem zero_reading_not_exact :
    Vout Format.ieee 0 ≠ fin 0.0001 ∧ Rs Format.ieee 0 ≠ fin 499990000 ∧
      Rs Format.ieee 0 = fin 499990016 := by
  refine ⟨?_, ?_, ieee_Rs_zero⟩
  · rw [ieee_Vout_zero]
    intro h
    have h' : (13743895 / 137438953472 : ℚ) = 0.0001 := FVal.fin.inj h
    norm_num at h'
  · rw [ieee_Rs_zero]
    intro h
    have h' : (499990016 : ℚ) = 499990000 := FVal.fin.inj h
    norm_num at h'

/-- C8 amended: at the reading 0 the voltage is clamped to the `float` stored for
0.0001 (13743895/2^37), `Rs` is 499990016 and `Rs/Ro` is 49999 in binary32; for a
library `pow` accurate to the relative error 2^-20 at that ratio, the CO2 density is a
finite `float` within the relative error 2^-21 of
`1000 * pow(49999, -2.3) * (16.04 / 24.45) / 1000 * (44.01 / 16.04)` and within 2^-19
of the same product with the real power, non-negative and below 0.08, and the carbon
level is LOW. -/
theorem zero_reading_low (rpow : ℚ → ℚ → ℚ) (hacc : AccurateAt rpow 0) :
    Vout Format.ieee 0 = fin (13743895 / 137438953472) ∧
    Rs Format.ieee 0 = fin 499990016 ∧
    RsRo Format.ieee 0 = fin 49999 ∧
    ∃ d : ℚ, co2_density Format.ieee rpow 0 = fin d ∧
      1000 * rpow 49999 exponent * (16.04 / 24.45) / 1000 * (44.01 / 16.04)
        * (1 - 1 / 2 ^ 21) ≤ d ∧
      d ≤ 1000 * rpow 49999 exponent * (16.04 / 24.45) / 1000 * (44.01 / 16.04)
        * (1 + 1 / 2 ^ 21) ∧
      |(d : ℝ) - 1000 * (49999 : ℝ) ^ (exponent : ℝ) * (16.04 / 24.45) / 1000 * (44.01 / 16.04)|
        ≤ 1000 * (49999 : ℝ) ^ (exponent : ℝ) * (16.04 / 24.45) / 1000 * (44.01 / 16.04)
          / 2 ^ 19 ∧
      0 ≤ d ∧ d < 0.08 ∧
      carbon_level Format.ieee (co2_density Format.ieee rpow 0) = "LOW" := by
  refine ⟨ieee_Vout_zero, ieee_Rs_zero, ieee_RsRo_zero, ?_⟩
  obtain ⟨u, d, hu, hd, hp, hdl, hdu⟩ := ieee_co2_fin rpow 0 le_rfl (by norm_num) hacc
  rw [ieee_RsRo_zero] at hu
  cases hu
  have hsmall := accurate_small rpow (hacc 49999 ieee_RsRo_zero)
  have hform : 1000 * rpow 49999 exponent * (16.04 / 24.45) / 1000 * (44.01 / 16.04)
      = 9 / 5 * rpow 49999 exponent := by
    norm_num
    ring
  have hd0 : 0 ≤ d := by
    norm_num at *
    linarith
  have hd8 : d < 0.08 := by
    norm_num at *
    linarith
  have hreal : |(d : ℝ)
        - 1000 * (49999 : ℝ) ^ (exponent : ℝ) * (16.04 / 24.45) / 1000 * (44.01 / 16.04)|
      ≤ 1000 * (49999 : ℝ) ^ (exponent : ℝ) * (16.04 / 24.45) / 1000 * (44.01 / 16.04)
        / 2 ^ 19 := by
    have hacc' := hacc 49999 ieee_RsRo_zero
    unfold PowAccurate at hacc'
    push_cast at hacc'
    obtain ⟨ha, hb⟩ := abs_le.mp hacc'
    have htpos : (0 : ℝ) < (49999 : ℝ) ^ (exponent : ℝ) :=
      Real.rpow_pos_of_pos (by norm_num) _
    have hdl' : (9 / 5 : ℝ) * ((rpow 49999 exponent : ℚ) : ℝ) * (1 - 1 / 2 ^ 21) ≤ (d : ℝ) := by
      have := (Rat.cast_le (K := ℝ)).mpr hdl
      push_cast at this
      exact this
    have hdu' : (d : ℝ) ≤ (9 / 5 : ℝ) * ((rpow 49999 exponent : ℚ) : ℝ) * (1 + 1 / 2 ^ 21) := by
      have := (Rat.cast_le (K := ℝ)).mpr hdu
      push_cast at this
      exact this
    have hformR : 1000 * (49999 : ℝ) ^ (exponent : ℝ) * (16.04 / 24.45) / 1000 * (44.01 / 16.04)
        = 9 / 5 * (49999 : ℝ) ^ (exponent : ℝ) := by
      norm_num
      ring
    rw [hformR, abs_le]
    constructor
    · norm_num at *
      linarith
    · norm_num at *
      linarith
  refine ⟨d, hd, by rw [hform]; exact hdl, by rw [hform]; exact hdu, hreal, hd0, hd8, ?_⟩
  rw [hd]
  obtain ⟨d1, hd1⟩ : ∃ v : FVal ℚ, Format.ieee.toFloat v = fin d := by
    rw [co2_density] at hd
    exact ⟨_, hd⟩
  cases d1 with
  | fin q => exact ((ieee_band_rule q d hd1).1).mpr hd8
  | pinf => cases hd1
  | ninf => cases hd1
  | nan => cases hd1

/-- C8 amended, with the power table. -/
theorem zero_reading_low_witness :
    ∃ d : ℚ, co2_density Format.ieee samplePow 0 = fin d ∧ 0 ≤ d ∧ d < 0.08 ∧
      carbon_level Format.ieee (co2_density Format.ieee samplePow 0) = "LOW" := by
  obtain ⟨_, _, _, d, hd, _, _, _, h0, h8, hl⟩ :=
    zero_reading_low samplePow samplePow_accurate_zero
  exact ⟨d, hd, h0, h8, hl⟩

/-- C10: for ADC readings `0 <= a <= b <= 4094` both CO2 densities are finite, the
density of `a` is at most the density of `b`, strictly less when `a < b`, and the
carbon level of `b` is not a lower band than that of `a`.  This holds without
rounding for the real power function, and in binary32/binary64 arithmetic for every
library `pow` accurate to the relative error 2^-20 at the two resistance ratios. -/
theorem co2_density_monotone (a b : Int) (h0 : 0 ≤ a) (hab : a ≤ b) (hb : b ≤ 4094) :
    (∃ x y : ℝ,
      co2_density Format.exact (fun (u e : ℝ) => u ^ e) a = fin x ∧
      co2_density Format.exact (fun (u e : ℝ) => u ^ e) b = fin y ∧
      x ≤ y ∧ (a < b → x < y) ∧
      bandRank (carbon_level Format.exact
          (co2_density Format.exact (fun (u e : ℝ) => u ^ e) a)) ≤
        bandRank (carbon_level Format.exact
          (co2_density Format.exact (fun (u e : ℝ) => u ^ e) b))) ∧
    (∀ rpow : ℚ → ℚ → ℚ, AccurateAt rpow a → AccurateAt rpow b →
      ∃ x y : ℚ,
        co2_density Format.ieee rpow a = fin x ∧
        co2_density Format.ieee rpow b = fin y ∧
        x ≤ y ∧ (a < b → x < y) ∧
        bandRank (carbon_level Format.ieee (co2_density Format.ieee rpow a)) ≤
          bandRank (carbon_level Format.ieee (co2_density Format.ieee rpow b))) := by
  constructor
  · rcases lt_or_eq_of_le hab with hlt | heq
    · obtain ⟨x, y, hx, hy, hxy⟩ :=
        exact_co2_lt (fun (u e : ℝ) => u ^ e) real_rpow_anti a b h0 hlt hb
      refine ⟨x, y, hx, hy, le_of_lt hxy, fun _ => hxy, ?_⟩
      rw [hx, hy, exact_carbon_level_fin, exact_carbon_level_fin]
      exact band_mono _ _ _ x y (le_of_lt hxy)
    · subst heq
      obtain ⟨r, hr, hR⟩ := exact_RsRo_pos (K := ℝ) a h0 hb
      have hx := exact_co2_of_RsRo (fun (u e : ℝ) => u ^ e) a r hr hR
      exact ⟨_, _, hx, hx, le_refl _, fun h => absurd h (lt_irrefl _), le_refl _⟩
  · intro rpow hacca haccb
    rcases lt_or_eq_of_le hab with hlt | heq
    · obtain ⟨x, y, hx, hy, hxy⟩ := ieee_co2_lt rpow a b h0 hlt hb hacca haccb
      refine ⟨x, y, hx, hy, le_of_lt hxy, fun _ => hxy, ?_⟩
      rw [hx, hy]
      exact ieee_band_mono x y (le_of_lt hxy)
    · subst heq
      obtain ⟨_, d, _, hd, _, _, _⟩ := ieee_co2_fin rpow a h0 hb hacca
      exact ⟨d, d, hd, hd, le_refl _, fun h => absurd h (lt_irrefl _), le_refl _⟩

/-- C10 at the readings 0 and 1, with the power table. -/
theorem co2_density_monotone_witness :
    ∃ x y : ℚ,
      co2_density Format.ieee samplePow 0 = fin x ∧
      co2_density Format.ieee samplePow 1 = fin y ∧
      x ≤ y ∧ ((0 : Int) < 1 → x < y) ∧
      bandRank (carbon_level Format.ieee (co2_density Format.ieee samplePow 0)) ≤
        bandRank (carbon_level Format.ieee (co2_density Format.ieee samplePow 1)) :=
  (co2_density_monotone 0 1 (by decide) (by decide) (by decide)).2 samplePow
    samplePow_accurate_zero samplePow_accurate_one

end CarbonWatch
